import Mathlib

/-!
# ethkey: the key-management CLI module (`ethkey/KeyAux.h`)

A shallow embedding of `KeyCLI` (option resolution and execution) and of the
password helpers of `KeyAux.h`, with theorems about them.

Conventions of the embedding.

* A C++ `enum class` value is its underlying ordinal; `OperationMode` wraps that
  ordinal, and each enumerator is defined the way the C++ rules number it
  (previous enumerator plus one, or the explicit initialiser).
* `argv` is a list of tokens and a read `argv[j]` is fallible: reading at an index
  that is not in the list makes the whole call `none`.
* `int` indices are natural numbers (argument counts stay far below `2^31`).
* External collaborators (terminal prompter, `KeyManager`, `SecretStore`, hex and
  hashing helpers) are parameters; every call made to them is recorded in a trace.
-/

namespace Ethkey

/-! ## Data model -/

/-- The enumeration `KeyCLI::OperationMode`, represented by its underlying ordinal. -/
structure OperationMode where
  ord : Nat
deriving DecidableEq, Repr

/-- Enumerator `None`: the first one, ordinal zero. -/
def OperationMode.None : OperationMode := ⟨0⟩
/-- Enumerator `ListBare`. -/
def OperationMode.ListBare : OperationMode := ⟨OperationMode.None.ord + 1⟩
/-- Enumerator `NewBare`. -/
def OperationMode.NewBare : OperationMode := ⟨OperationMode.ListBare.ord + 1⟩
/-- Enumerator `ImportBare`. -/
def OperationMode.ImportBare : OperationMode := ⟨OperationMode.NewBare.ord + 1⟩
/-- Enumerator `ExportBare`. -/
def OperationMode.ExportBare : OperationMode := ⟨OperationMode.ImportBare.ord + 1⟩
/-- Enumerator `RecodeBare`. -/
def OperationMode.RecodeBare : OperationMode := ⟨OperationMode.ExportBare.ord + 1⟩
/-- Enumerator `FirstWallet`. -/
def OperationMode.FirstWallet : OperationMode := ⟨OperationMode.RecodeBare.ord + 1⟩
/-- Enumerator `CreateWallet`: no initialiser, so one more than `FirstWallet`. -/
def OperationMode.CreateWallet : OperationMode := ⟨OperationMode.FirstWallet.ord + 1⟩
/-- Enumerator `List = FirstWallet`. -/
def OperationMode.List : OperationMode := ⟨OperationMode.FirstWallet.ord⟩
/-- Enumerator `New`: one more than `List`. -/
def OperationMode.New : OperationMode := ⟨OperationMode.List.ord + 1⟩
/-- Enumerator `Import`. -/
def OperationMode.Import : OperationMode := ⟨OperationMode.New.ord + 1⟩
/-- Enumerator `Export`. -/
def OperationMode.Export : OperationMode := ⟨OperationMode.Import.ord + 1⟩
/-- Enumerator `Recode`. -/
def OperationMode.Recode : OperationMode := ⟨OperationMode.Export.ord + 1⟩
/-- Enumerator `Kill`. -/
def OperationMode.Kill : OperationMode := ⟨OperationMode.Recode.ord + 1⟩

/-- The insertion `m[n] = v` on a `std::map<string, string>`, kept as a list of
pairs with unique keys in increasing key order. -/
def mapAssign : List (String × String) → String → String → List (String × String)
  | [], n, v => [(n, v)]
  | (k, w) :: rest, n, v =>
    if n = k then (k, v) :: rest
    else if n < k then (n, v) :: (k, w) :: rest
    else (k, w) :: mapAssign rest n v

/-- The data members of `KeyCLI` (the session). -/
structure KeyCLI where
  m_mode : OperationMode
  m_secretsPath : String
  m_walletPath : String
  m_masterPassword : String
  m_unlocks : List String
  m_lock : String
  m_icap : Bool
  m_name : String
  m_inputs : List String
  m_kdf : String
  m_kdfParams : List (String × String)
deriving DecidableEq, Repr

/-- The constructor `KeyCLI(OperationMode _mode = None)` with the default member
initialisers; the two default paths come from `SecretStore::defaultPath()` and
`KeyManager::defaultPath()`. -/
def KeyCLI.init (defaultSecretsPath defaultWalletPath : String)
    (mode : OperationMode) : KeyCLI :=
  { m_mode := mode
    m_secretsPath := defaultSecretsPath
    m_walletPath := defaultWalletPath
    m_masterPassword := ""
    m_unlocks := []
    m_lock := ""
    m_icap := true
    m_name := ""
    m_inputs := []
    m_kdf := "scrypt"
    m_kdfParams := [] }

/-! ## Option resolution -/

/-- What one call of `interpretOption` leaves behind: the returned flag, the
index `i` (passed by reference) and the session. -/
structure Interpreted where
  ret : Bool
  i : Nat
  cli : KeyCLI
deriving DecidableEq, Repr

/-- The method `KeyCLI::interpretOption(int& i, int argc, char** argv)`.
The branches are tried in source order; `argv[++i]` reads the next token and
leaves `i` on it. -/
def KeyCLI.interpretOption (s : KeyCLI) (i argc : Nat) (argv : List String) :
    Option Interpreted :=
  match argv[i]? with
  | none => none
  | some arg =>
    if arg = "-n" ∨ arg = "--new" then
      some ⟨true, i, { s with m_mode := OperationMode.New }⟩
    else if arg = "--wallet-path" ∧ i + 1 < argc then
      argv[i + 1]?.map fun a => ⟨true, i + 1, { s with m_walletPath := a }⟩
    else if arg = "--secrets-path" ∧ i + 1 < argc then
      argv[i + 1]?.map fun a => ⟨true, i + 1, { s with m_secretsPath := a }⟩
    else if (arg = "-m" ∨ arg = "--master") ∧ i + 1 < argc then
      argv[i + 1]?.map fun a => ⟨true, i + 1, { s with m_masterPassword := a }⟩
    else if arg = "--unlock" ∧ i + 1 < argc then
      argv[i + 1]?.map fun a => ⟨true, i + 1, { s with m_unlocks := s.m_unlocks ++ [a] }⟩
    else if arg = "--lock" ∧ i + 1 < argc then
      argv[i + 1]?.map fun a => ⟨true, i + 1, { s with m_lock := a }⟩
    else if arg = "--kdf" ∧ i + 1 < argc then
      argv[i + 1]?.map fun a => ⟨true, i + 1, { s with m_kdf := a }⟩
    else if arg = "--kdf-param" ∧ i + 2 < argc then
      argv[i + 1]?.bind fun n => argv[i + 2]?.map fun v =>
        ⟨true, i + 2, { s with m_kdfParams := mapAssign s.m_kdfParams n v }⟩
    else if arg = "--new-bare" then
      some ⟨true, i, { s with m_mode := OperationMode.NewBare }⟩
    else if arg = "--import-bare" then
      some ⟨true, i, { s with m_mode := OperationMode.ImportBare }⟩
    else if arg = "--list-bare" then
      some ⟨true, i, { s with m_mode := OperationMode.ListBare }⟩
    else if arg = "--export-bare" then
      some ⟨true, i, { s with m_mode := OperationMode.ExportBare }⟩
    else if arg = "--recode-bare" then
      some ⟨true, i, { s with m_mode := OperationMode.RecodeBare }⟩
    else if arg = "--create-wallet" then
      some ⟨true, i, { s with m_mode := OperationMode.CreateWallet }⟩
    else if arg = "--list" then
      some ⟨true, i, { s with m_mode := OperationMode.List }⟩
    else if (arg = "-n" ∨ arg = "--new") ∧ i + 1 < argc then
      argv[i + 1]?.map fun a =>
        ⟨true, i + 1, { s with m_mode := OperationMode.New, m_name := a }⟩
    else if (arg = "-i" ∨ arg = "--import") ∧ i + 2 < argc then
      argv[i + 1]?.bind fun a => argv[i + 2]?.map fun b =>
        ⟨true, i + 2, { s with m_mode := OperationMode.Import, m_inputs := [a], m_name := b }⟩
    else if arg = "--export" then
      some ⟨true, i, { s with m_mode := OperationMode.Export }⟩
    else if arg = "--recode" then
      some ⟨true, i, { s with m_mode := OperationMode.Recode }⟩
    else if arg = "--no-icap" then
      some ⟨true, i, { s with m_icap := false }⟩
    else if s.m_mode = OperationMode.ImportBare ∨ s.m_mode = OperationMode.Recode
        ∨ s.m_mode = OperationMode.Export ∨ s.m_mode = OperationMode.RecodeBare
        ∨ s.m_mode = OperationMode.ExportBare then
      some ⟨true, i, { s with m_inputs := s.m_inputs ++ [arg] }⟩
    else
      some ⟨false, i, s⟩

/-- What a scan of the argument vector leaves: the session, and the indices at
which a token was read as an option name (where `interpretOption` was called),
in order. -/
structure Scanned where
  cli : KeyCLI
  names : List Nat
deriving DecidableEq, Repr

/-- Modelled from the spec: the caller's loop over the argument vector is not in
`ethkey/KeyAux.h`; as the specification describes it, `interpretOption` is called
on the tokens from left to right, each call starting at the index after the last
token the previous call consumed, whatever the call returned. The fuel bounds
the number of calls; a read outside `argv`, or fuel that runs out before `argc`
is reached, gives `none`. -/
def interpretAll : Nat → KeyCLI → Nat → Nat → List String → Option Scanned
  | 0, s, i, argc, _ => if i < argc then none else some ⟨s, []⟩
  | fuel + 1, s, i, argc, argv =>
    if i < argc then
      match s.interpretOption i argc argv with
      | none => none
      | some r =>
        (interpretAll fuel r.cli (r.i + 1) argc argv).map fun t => ⟨t.cli, i :: t.names⟩
    else some ⟨s, []⟩

/-- The mode-setting tokens as the specification lists them, with the mode each
assigns when it is read as an option name at index `p`: `-n`, `--new`,
`--new-bare`, `--import-bare`, `--list-bare`, `--export-bare`, `--recode-bare`,
`--create-wallet`, `--list`, `--export`, `--recode`, and `-i`/`--import` when its
two arguments are available. Any other token assigns no mode. -/
def modeSetBy (argc : Nat) (argv : List String) (p : Nat) : Option OperationMode :=
  match argv[p]? with
  | none => none
  | some arg =>
    if arg = "-n" ∨ arg = "--new" then some OperationMode.New
    else if arg = "--new-bare" then some OperationMode.NewBare
    else if arg = "--import-bare" then some OperationMode.ImportBare
    else if arg = "--list-bare" then some OperationMode.ListBare
    else if arg = "--export-bare" then some OperationMode.ExportBare
    else if arg = "--recode-bare" then some OperationMode.RecodeBare
    else if arg = "--create-wallet" then some OperationMode.CreateWallet
    else if arg = "--list" then some OperationMode.List
    else if arg = "--export" then some OperationMode.Export
    else if arg = "--recode" then some OperationMode.Recode
    else if (arg = "-i" ∨ arg = "--import") ∧ p + 2 < argc then some OperationMode.Import
    else none

/-- The mode assigned by the last mode-setting token among the option names, if
there is one. -/
def lastModeSet (argc : Nat) (argv : List String) (names : List Nat) : Option OperationMode :=
  (names.filterMap (modeSetBy argc argv)).getLast?

/-- The flags that take no argument (the specification's list). -/
def flagsNoArgument : List String :=
  ["-n", "--new", "--new-bare", "--import-bare", "--list-bare", "--export-bare",
   "--recode-bare", "--create-wallet", "--list", "--export", "--recode", "--no-icap"]

/-- The flags that take one argument. -/
def flagsOneArgument : List String :=
  ["--wallet-path", "--secrets-path", "-m", "--master", "--unlock", "--lock", "--kdf"]

/-- The flags that take two arguments. -/
def flagsTwoArguments : List String := ["--kdf-param", "-i", "--import"]

/-- A token at index `i` matches no flag branch: it is not a flag without
argument, and if it is a flag with arguments, too few tokens follow it. -/
def MatchesNoFlag (arg : String) (i argc : Nat) : Prop :=
  arg ∉ flagsNoArgument
  ∧ (arg ∈ flagsOneArgument → ¬ i + 1 < argc)
  ∧ (arg ∈ flagsTwoArguments → ¬ i + 2 < argc)

instance (arg : String) (i argc : Nat) : Decidable (MatchesNoFlag arg i argc) := by
  unfold MatchesNoFlag; infer_instance

/-- The five input-collecting modes. -/
def OperationMode.collectsInputs (m : OperationMode) : Bool :=
  m = OperationMode.ImportBare ∨ m = OperationMode.Export ∨ m = OperationMode.Recode
    ∨ m = OperationMode.RecodeBare ∨ m = OperationMode.ExportBare

/-! ## Collaborators, terminal script and traces -/

/-- A 128-bit identifier (`h128`), by its numeric value; zero is the null
identifier, the one `if (u)` takes as false. -/
abbrev H128 := Nat

/-- A byte string (`bytes`); `Secret` and `Address` are byte strings too. -/
abbrev Bytes := List Nat

/-- The key-derivation choice `KDF` of the secret store. -/
inductive KDF
  | PBKDF2_SHA256
  | Scrypt
deriving DecidableEq, Repr

/-- What `execute` and the password helpers do to the outside, in order: terminal
prompts, console writes and calls to the wallet and the store, each with its
arguments. -/
inductive Event
  | getPassword (prompt : String)
  | cout (text : String)
  | cerr (text : String)
  | cinWord
  | haveHint (password : String)
  | keyManager (walletPath secretsPath : String)
  | walletExists
  | walletLoad (password : String)
  | walletCreate (password : String)
  | secretStore (secretsPath : String)
  | storeKeys
  | importSecret (secret : Bytes) (password : String)
  | importKey (file : String)
  | recode (uuid : H128) (newPassword : String) (kdf : KDF)
  | contentsString (file : String)
  | secretRandom
  | exit (code : Int)
deriving DecidableEq, Repr

/-- The collaborators of `KeyAux.h`, none of which is defined in it: the wallet
(`KeyManager`), the secret store (`SecretStore`) and the helpers of libdevcore
and libethcore. `W` is the state of the outside world (files, randomness); an
operation that may change it returns the new state. The wallet and the store
are addressed by the paths they were constructed with.

Modelled from the spec: for `recode`, the store "lazily prompts for the existing
password only if the store needs it to decrypt": `recodeAsks` tells whether the
store invokes the password supplier (once), and `recode` receives the supplied
password when it did. -/
structure Collaborators (W : Type) where
  walletExists : W → String → String → Bool
  walletLoad : W → String → String → String → Bool × W
  walletCreate : W → String → String → String → W
  storeKeys : W → String → List H128
  importSecret : W → String → Bytes → String → H128 × W
  importKey : W → String → String → H128 × W
  recodeAsks : W → String → H128 → Bool
  recode : W → String → H128 → String → Option String → KDF → Bool × W
  secretRandom : W → Bytes × W
  contentsString : W → String → String
  fromHex : String → Bytes
  sha3 : Bytes → Bytes
  toAddress : Bytes → Bytes
  toUUID : H128 → String
  fromUUID : String → H128
  abridged : Bytes → String
  hex : Bytes → String
  icapEncoded : Bytes → String

/-- How a helper that reads the terminal ends: it returns a value and leaves the
responses it did not read, or it is still waiting in `getPassword` because the
scripted responses are used up. -/
inductive Outcome (α : Type)
  | returned (value : α) (rest : List String)
  | awaiting
deriving DecidableEq, Repr

/-- A run of a helper: its events and how it ended. -/
structure Run (α : Type) where
  trace : List Event
  outcome : Outcome α
deriving DecidableEq, Repr

/-- The terminal prompt `getPassword(prompt)` of libdevcore on a scripted
terminal: it shows the prompt and returns the next response. -/
def getPassword (prompt : String) : List String → Run String
  | [] => ⟨[.getPassword prompt], .awaiting⟩
  | r :: rest => ⟨[.getPassword prompt], .returned r rest⟩

/-- The confirmation prompt of both `createPassword` overloads. -/
def confirmPrompt : String := "Please confirm the password by entering it again: "

/-- The line written when the two entries differ. -/
def differentLine : String := "Passwords were different. Try again.\n"

/-- The function `createPassword(std::string const& _prompt)`: prompt, prompt again
for confirmation, return on equality, otherwise report and start over. -/
def createPassword (prompt : String) : List String → Run String
  | [] => ⟨[.getPassword prompt], .awaiting⟩
  | [_] => ⟨[.getPassword prompt, .getPassword confirmPrompt], .awaiting⟩
  | ret :: confirm :: rest =>
    if ret = confirm then
      ⟨[.getPassword prompt, .getPassword confirmPrompt], .returned ret rest⟩
    else
      let again := createPassword prompt rest
      ⟨[.getPassword prompt, .getPassword confirmPrompt, .cout differentLine] ++ again.trace,
        again.outcome⟩

/-- The loop of the overload `createPassword(KeyManager&, std::string const&)`
(the same text as the loop above, with `pass` for `ret`). -/
def createPasswordKM.loop (prompt : String) : List String → Run String
  | [] => ⟨[.getPassword prompt], .awaiting⟩
  | [_] => ⟨[.getPassword prompt, .getPassword confirmPrompt], .awaiting⟩
  | pass :: confirm :: rest =>
    if pass = confirm then
      ⟨[.getPassword prompt, .getPassword confirmPrompt], .returned pass rest⟩
    else
      let again := createPasswordKM.loop prompt rest
      ⟨[.getPassword prompt, .getPassword confirmPrompt, .cout differentLine] ++ again.trace,
        again.outcome⟩

/-- The overload `createPassword(KeyManager& _keyManager, std::string const& _prompt)`:
after the loop, a hint is read from standard input if the wallet has none for
this password. `haveHint` is the wallet's answer, `stdin` the words waiting on
standard input (`cin >> hint` leaves the hint empty when there is none). The
value is the pair `(pass, hint)` together with the words left on standard input. -/
def createPasswordKM (haveHint : String → Bool) (prompt : String) (script stdin : List String) :
    Run ((String × String) × List String) :=
  match createPasswordKM.loop prompt script with
  | ⟨t, .awaiting⟩ => ⟨t, .awaiting⟩
  | ⟨t, .returned pass rest⟩ =>
    if ¬ haveHint pass then
      match stdin with
      | [] =>
        ⟨t ++ [.haveHint pass, .cout "Enter a hint to help you remember this password: ", .cinWord],
          .returned ((pass, ""), []) rest⟩
      | hint :: words =>
        ⟨t ++ [.haveHint pass, .cout "Enter a hint to help you remember this password: ", .cinWord],
          .returned ((pass, hint), words) rest⟩
    else
      ⟨t ++ [.haveHint pass], .returned ((pass, ""), stdin) rest⟩

/-! ## Execution -/

/-- How `execute` ends: it returns, the process exits, it is still waiting for a
terminal response that the script does not hold, or the key-generation loop
did not finish within the fuel. -/
inductive Status
  | returned
  | exited (code : Int)
  | awaitingInput
  | outOfFuel
deriving DecidableEq, Repr

/-- A run of `execute` (or of a part of it): status, events, session, unread
responses and the world it leaves. -/
structure Executed (W : Type) where
  status : Status
  trace : List Event
  cli : KeyCLI
  script : List String
  world : W

/-- The run `r` preceded by the events `t`. -/
def Executed.after {W : Type} (t : List Event) (r : Executed W) : Executed W :=
  { r with trace := t ++ r.trace }

/-- A key pair `KeyPair`: the secret and the address derived from it. -/
structure KeyPair where
  secret : Bytes
  address : Bytes
deriving DecidableEq, Repr

/-- The constructor `KeyPair(Secret)`. -/
def KeyPair.ofSecret {W : Type} (c : Collaborators W) (secret : Bytes) : KeyPair :=
  ⟨secret, c.toAddress secret⟩

/-- The loop `while (m_icap && k.address()[0]) k = KeyPair(sha3(k.secret()))` of
`makeKey`; the fuel bounds the number of times the body runs. -/
def KeyCLI.makeKeyLoop {W : Type} (c : Collaborators W) (s : KeyCLI) : Nat → KeyPair → Option KeyPair
  | 0, k => if s.m_icap = true ∧ k.address.getD 0 0 ≠ 0 then none else some k
  | fuel + 1, k =>
    if s.m_icap = true ∧ k.address.getD 0 0 ≠ 0 then
      KeyCLI.makeKeyLoop c s fuel (KeyPair.ofSecret c (c.sha3 k.secret))
    else some k

/-- The method `KeyCLI::makeKey()`. -/
def KeyCLI.makeKey {W : Type} (c : Collaborators W) (s : KeyCLI) (fuel : Nat) (w : W) :
    Option KeyPair × W :=
  let drawn := c.secretRandom w
  (KeyCLI.makeKeyLoop c s fuel (KeyPair.ofSecret c drawn.1), drawn.2)

/-- The method `KeyCLI::kdf()`. -/
def KeyCLI.kdf (s : KeyCLI) : KDF :=
  if s.m_kdf = "pbkdf2" then KDF.PBKDF2_SHA256 else KDF.Scrypt

/-- The method `KeyCLI::lockPassword(_accountName)`. -/
def KeyCLI.lockPassword (s : KeyCLI) (accountName : String) (script : List String) : Run String :=
  if s.m_lock = "" then
    createPassword ("Enter a password with which to secure account " ++ accountName ++ ": ") script
  else ⟨[], .returned s.m_lock script⟩

/-- Insertion into a `std::set<h128>`: increasing order, no duplicates. -/
def setInsert (u : H128) : List H128 → List H128
  | [] => [u]
  | v :: rest =>
    if u < v then u :: v :: rest else if u = v then v :: rest else v :: setInsert u rest

/-- The set `std::set<h128>() + keys`. -/
def setOfKeys (keys : List H128) : List H128 :=
  keys.foldl (fun acc u => setInsert u acc) []

/-- The prompt of the master-password creation in `execute`. -/
def masterCreatePrompt : String :=
  "Please enter a MASTER password to protect your key store (make it strong!): "

/-- The prompt of the unlock loop in `execute`. -/
def masterPrompt : String := "Please enter your MASTER password: "

/-- What the first part of the body of the `ImportBare` loop finds for one input:
the bytes `b`, the identifier `u`, the world it leaves and the calls it made. -/
structure Probe (W : Type) where
  b : Bytes
  u : H128
  world : W
  trace : List Event

/-- The first part of the body of the `ImportBare` loop: the token as hex, else
the contents of the file it names as hex, else the store's own `importKey`. -/
def KeyCLI.importProbe {W : Type} (c : Collaborators W) (s : KeyCLI) (w : W) (i : String) :
    Probe W :=
  if (c.fromHex i).length ≠ 32 then
    if (c.fromHex (c.contentsString w i)).length ≠ 32 then
      ⟨c.fromHex (c.contentsString w i), (c.importKey w s.m_secretsPath i).1,
        (c.importKey w s.m_secretsPath i).2, [.contentsString i, .importKey i]⟩
    else ⟨c.fromHex (c.contentsString w i), 0, w, [.contentsString i]⟩
  else ⟨c.fromHex i, 0, w, []⟩

/-- The `ImportBare` case of `execute`: the loop over the inputs. -/
def KeyCLI.importBare {W : Type} (c : Collaborators W) (s : KeyCLI) :
    List String → List String → W → Executed W
  | [], script, w => ⟨.returned, [], s, script, w⟩
  | i :: inputs, script, w =>
    let probe := s.importProbe c w i
    if probe.u = 0 ∧ probe.b.length = 32 then
      match s.lockPassword (c.abridged (c.toAddress probe.b)) script with
      | ⟨t2, .awaiting⟩ => ⟨.awaitingInput, probe.trace ++ t2, s, [], probe.world⟩
      | ⟨t2, .returned password rest⟩ =>
        let imported := c.importSecret probe.world s.m_secretsPath probe.b password
        (KeyCLI.importBare c s inputs rest imported.2).after
          (probe.trace ++ t2 ++ [.importSecret probe.b password,
            .cout ("Successfully imported " ++ i ++ " as " ++ c.toUUID imported.1)])
    else
      (KeyCLI.importBare c s inputs script probe.world).after
        (probe.trace ++ [.cerr ("Cannot import " ++ i ++ " not a file or secret.\n")])

/-- The password supplier handed to `store.recode`, as the store uses it: when the
store asks, the lambda `[&](){ return getPassword("Enter password for key ...") }`
runs once; when it does not ask, nothing is prompted. -/
def KeyCLI.existingPassword {W : Type} (c : Collaborators W) (s : KeyCLI) (w : W) (u : H128)
    (script : List String) : Run (Option String) :=
  if c.recodeAsks w s.m_secretsPath u = true then
    match getPassword ("Enter password for key " ++ c.toUUID u ++ ": ") script with
    | ⟨t, .awaiting⟩ => ⟨t, .awaiting⟩
    | ⟨t, .returned existing rest⟩ => ⟨t, .returned (some existing) rest⟩
  else ⟨[], .returned none script⟩

/-- The `RecodeBare` case of `execute`: the loop over the inputs. The arguments of
`store.recode` are evaluated before the call, so the new password is asked for
first; the store may then ask for the existing password through the supplier. -/
def KeyCLI.recodeBare {W : Type} (c : Collaborators W) (s : KeyCLI) :
    List String → List String → W → Executed W
  | [], script, w => ⟨.returned, [], s, script, w⟩
  | i :: inputs, script, w =>
    let u := c.fromUUID i
    if u ≠ 0 then
      match s.lockPassword (c.toUUID u) script with
      | ⟨t1, .awaiting⟩ => ⟨.awaitingInput, t1, s, [], w⟩
      | ⟨t1, .returned password rest⟩ =>
        match s.existingPassword c w u rest with
        | ⟨t2, .awaiting⟩ => ⟨.awaitingInput, t1 ++ [.recode u password s.kdf] ++ t2, s, [], w⟩
        | ⟨t2, .returned existing rest2⟩ =>
          let recoded := c.recode w s.m_secretsPath u password existing s.kdf
          (KeyCLI.recodeBare c s inputs rest2 recoded.2).after
            (t1 ++ [.recode u password s.kdf] ++ t2 ++
              [.cerr (if recoded.1 = true then "Re-encoded " ++ c.toUUID u ++ "\n"
                else "Couldn't re-encode " ++ c.toUUID u
                  ++ "; key corrupt or incorrect password supplied.\n")])
    else
      (KeyCLI.recodeBare c s inputs script w).after
        [.cerr ("Couldn't re-encode " ++ c.toUUID u ++ "; not found.\n")]

/-- The unlock loop of the wallet branch of `execute`:
`while (true) { if (wallet.load(m_masterPassword)) break; ... }`. -/
def KeyCLI.unlock {W : Type} (c : Collaborators W) : List String → KeyCLI → W → Executed W
  | script, s, w =>
    let loaded := c.walletLoad w s.m_walletPath s.m_secretsPath s.m_masterPassword
    if loaded.1 = true then
      ⟨.returned, [.walletLoad s.m_masterPassword], s, script, loaded.2⟩
    else
      let t : List Event := [.walletLoad s.m_masterPassword]
        ++ (if s.m_masterPassword ≠ "" then [.cout "Password invalid. Try again.\n"] else [])
        ++ [.getPassword masterPrompt]
      match script with
      | [] => ⟨.awaitingInput, t, { s with m_masterPassword := "" }, [], loaded.2⟩
      | r :: rest =>
        (KeyCLI.unlock c rest { s with m_masterPassword := r } loaded.2).after t

/-- The method `KeyCLI::execute()`. `fuel` bounds the key-generation loop of
`makeKey`; `script` holds the responses the terminal will give. -/
def KeyCLI.execute {W : Type} (c : Collaborators W) (fuel : Nat) (s : KeyCLI)
    (script : List String) (w : W) : Executed W :=
  if s.m_mode = OperationMode.CreateWallet then
    let asked : Run String :=
      if s.m_masterPassword = "" then createPassword masterCreatePrompt script
      else ⟨[], .returned s.m_masterPassword script⟩
    match asked with
    | ⟨t, .awaiting⟩ => ⟨.awaitingInput, .keyManager s.m_walletPath s.m_secretsPath :: t, s, [], w⟩
    | ⟨t, .returned master rest⟩ =>
      if master = "" then
        ⟨.returned, .keyManager s.m_walletPath s.m_secretsPath :: t
            ++ [.cerr "Aborted (empty password not allowed).\n"],
          { s with m_masterPassword := master }, rest, w⟩
      else
        ⟨.returned, .keyManager s.m_walletPath s.m_secretsPath :: t ++ [.walletCreate master],
          { s with m_masterPassword := master }, rest,
          c.walletCreate w s.m_walletPath s.m_secretsPath master⟩
  else if s.m_mode.ord < OperationMode.FirstWallet.ord then
    Executed.after [.secretStore s.m_secretsPath] <|
      if s.m_mode = OperationMode.ListBare then
        ⟨.returned,
          .storeKeys :: (setOfKeys (c.storeKeys w s.m_secretsPath)).map
            (fun u => .cout (c.toUUID u ++ "\n")),
          s, script, w⟩
      else if s.m_mode = OperationMode.NewBare then
        let asked : Run String :=
          if s.m_lock = "" then
            createPassword "Enter a password with which to secure this account: " script
          else ⟨[], .returned s.m_lock script⟩
        match asked with
        | ⟨t, .awaiting⟩ => ⟨.awaitingInput, t, s, [], w⟩
        | ⟨t, .returned lock rest⟩ =>
          match KeyCLI.makeKey c { s with m_lock := lock } fuel w with
          | (none, w1) => ⟨.outOfFuel, t ++ [.secretRandom], { s with m_lock := lock }, rest, w1⟩
          | (some k, w1) =>
            ⟨.returned,
              t ++ [.secretRandom, .importSecret k.secret lock,
                .cout ("Created key " ++ c.abridged k.address ++ "\n"),
                .cout ("Address: " ++ c.hex k.address ++ "\n"),
                .cout ("ICAP: " ++ c.icapEncoded k.address ++ "\n")],
              { s with m_lock := lock }, rest, (c.importSecret w1 s.m_secretsPath k.secret lock).2⟩
      else if s.m_mode = OperationMode.ImportBare then
        KeyCLI.importBare c s s.m_inputs script w
      else if s.m_mode = OperationMode.ExportBare then
        ⟨.returned, [], s, script, w⟩
      else if s.m_mode = OperationMode.RecodeBare then
        KeyCLI.recodeBare c s s.m_inputs script w
      else
        ⟨.returned, [], s, script, w⟩
  else
    Executed.after [.keyManager s.m_walletPath s.m_secretsPath, .walletExists] <|
      if c.walletExists w s.m_walletPath s.m_secretsPath = true then
        KeyCLI.unlock c script s w
      else
        ⟨.exited (-1), [.cerr "Couldn't open wallet. Does it exist?\n"], s, script, w⟩

/-- The facts about one `interpretOption` call that the theorems below share:
it yields a result, the index stays inside the vector, the mode is the one the
token assigns (or the old one), and the inputs are kept, extended by the token,
or replaced by the first argument of `-i`/`--import`. -/
def StepFacts (s : KeyCLI) (i : Nat) (argv : List String) (o : Option Interpreted) : Prop :=
  ∃ r, o = some r ∧ i ≤ r.i ∧ r.i < argv.length
    ∧ r.cli.m_mode = (modeSetBy argv.length argv i).getD s.m_mode
    ∧ (r.cli.m_inputs = s.m_inputs ∨ r.cli.m_inputs = s.m_inputs ++ argv[i]?.toList
        ∨ (modeSetBy argv.length argv i = some OperationMode.Import
            ∧ r.cli.m_inputs = argv[i + 1]?.toList))

/-- Pair `k` of the script is the first pair of equal responses, with common
value `v`: responses `2k` and `2k+1` are both `v`, and the two responses of
every earlier pair differ. -/
def FirstEqualPair (rs : List String) (k : Nat) (v : String) : Prop :=
  rs[2 * k]? = some v ∧ rs[2 * k + 1]? = some v ∧ ∀ j, j < k → rs[2 * j]? ≠ rs[2 * j + 1]?

/-- The events of `createPassword` when it returns at pair `k`: `k` rounds of
prompt, confirmation and mismatch report, then one round of prompt and
confirmation. -/
def confirmTrace (prompt : String) (k : Nat) : List Event :=
  (List.replicate k [Event.getPassword prompt, Event.getPassword confirmPrompt,
      Event.cout differentLine]).flatten
    ++ [Event.getPassword prompt, Event.getPassword confirmPrompt]

/-- The passwords passed to `wallet.create`, in order. -/
def walletCreates (t : List Event) : List String :=
  t.filterMap fun e => match e with
    | .walletCreate password => some password
    | _ => none

/-- The prompts shown by `getPassword`, in order. -/
def promptsShown (t : List Event) : List String :=
  t.filterMap fun e => match e with
    | .getPassword prompt => some prompt
    | _ => none

/-- The protecting passwords handed to the store, in order: the password of each
`importSecret` call and the new password of each `recode` call. -/
def protectingPasswords (t : List Event) : List String :=
  t.filterMap fun e => match e with
    | .importSecret _ password => some password
    | .recode _ password _ => some password
    | _ => none

/-- The value `p` was entered twice in a row on the terminal. -/
def EnteredTwice (script : List String) (p : String) : Prop :=
  ∃ before after, script = before ++ p :: p :: after

/-- A small concrete world to run the program in: whether the wallet file is
there, its master password, and the secrets imported so far with their
passwords. -/
structure TestWorld where
  walletPresent : Bool
  master : String
  stored : List (Bytes × String)
deriving DecidableEq, Repr

/-- Collaborators over `TestWorld`: the wallet accepts exactly its master
password; the store numbers imported secrets from one; a 64-character token
decodes to 32 bytes and nothing else does; the random secret is `[1]`, hashing
adds one to the first byte, and the address is the parity of that byte. -/
def testCollaborators : Collaborators TestWorld where
  walletExists := fun w _ _ => w.walletPresent
  walletLoad := fun w _ _ password => (w.walletPresent && decide (password = w.master), w)
  walletCreate := fun w _ _ password => { w with walletPresent := true, master := password }
  storeKeys := fun w _ => List.range' 1 w.stored.length
  importSecret := fun w _ secret password =>
    (w.stored.length + 1, { w with stored := w.stored ++ [(secret, password)] })
  importKey := fun w _ _ => (0, w)
  recodeAsks := fun _ _ _ => true
  recode := fun w _ u _ _ _ => (decide (u ≤ w.stored.length), w)
  secretRandom := fun w => ([1], w)
  contentsString := fun _ _ => ""
  fromHex := fun text => if text.length = 64 then List.replicate 32 0 else []
  sha3 := fun secret => [secret.headD 0 + 1]
  toAddress := fun secret => [secret.headD 0 % 2]
  toUUID := fun u => if u = 0 then "null" else "key"
  fromUUID := fun text => text.length
  abridged := fun _ => "abridged"
  hex := fun _ => "hex"
  icapEncoded := fun _ => "icap"

/-- Where a protecting password may come from: it is the configured lock password,
which is then non-empty, or no lock password is configured and the value was
entered twice in a row on the terminal. -/
def LockOrigin (s : KeyCLI) (script : List String) (p : String) : Prop :=
  (s.m_lock ≠ "" ∧ p = s.m_lock) ∨ (s.m_lock = "" ∧ EnteredTwice script p)

/-- The world before anything was created: no wallet file, nothing stored. -/
def testWorld : TestWorld := ⟨false, "", []⟩

/-- A fresh session of the test runs in the given mode. -/
def testSession (mode : OperationMode) : KeyCLI := KeyCLI.init "secrets" "wallet" mode

/-- The lookup `m.find(n)` on a `std::map<string, string>` kept as a list of pairs:
the value of the first pair with that key. -/
def mapFind : List (String × String) → String → Option String
  | [], _ => none
  | (k, w) :: rest, n => if n = k then some w else mapFind rest n

/-- The mode-setting tokens other than `-i`/`--import`. -/
def modeFlagsNoArgument : List String :=
  ["-n", "--new", "--new-bare", "--import-bare", "--list-bare", "--export-bare",
   "--recode-bare", "--create-wallet", "--list", "--export", "--recode"]

/-- The token at index `p` is `-i` or `--import` with its two arguments available:
read as an option name there, it is interpreted as the wallet import. -/
def ImportInterpretedAt (argc : Nat) (argv : List String) (p : Nat) : Prop :=
  ∃ arg, argv[p]? = some arg ∧ (arg = "-i" ∨ arg = "--import") ∧ p + 2 < argc

/-- The test collaborators with a store whose own `importKey` accepts every file
and returns the identifier 7 for it. -/
def keyFileCollaborators : Collaborators TestWorld :=
  { testCollaborators with importKey := fun w _ _ => (7, w) }

/-- The passwords passed to `wallet.load`, in order. -/
def walletLoads (t : List Event) : List String :=
  t.filterMap fun e => match e with
    | .walletLoad password => some password
    | _ => none

/-- The line written after a failed attempt with a non-empty password. -/
def invalidLine : String := "Password invalid. Try again.\n"

/-- The load attempts as the specification describes them: the password held first,
then the terminal responses in order, each tried once on the wallet as the
previous attempt left it, up to and including the first one the wallet accepts.
Each attempt is paired with the wallet's answer. -/
def loadAttempts {W : Type} (c : Collaborators W) (walletPath secretsPath : String) :
    List String → String → W → List (String × Bool)
  | script, p, w =>
    if (c.walletLoad w walletPath secretsPath p).1 = true then [(p, true)]
    else (p, false) :: match script with
      | [] => []
      | q :: rest =>
        loadAttempts c walletPath secretsPath rest q (c.walletLoad w walletPath secretsPath p).2

/-- The wallet of the unlock test: present, with master password correct. -/
def lockedWorld : TestWorld := ⟨true, "correct", []⟩

/-- What a run `r` of the unlock loop, started with the held password `p` and the
terminal responses `script`, owes the load attempts of the specification:
`wallet.load` is called with the attempted passwords, in order; these are an
initial part of `p` followed by the responses, and a returning run leaves the
other responses unread; every attempt but the last failed; the master prompt is
shown once after each failed attempt, and the invalid-password line once after
each failed attempt with a non-empty password; the run returns holding the
accepted password if the last attempt was accepted, and otherwise every
response was tried and the run waits for input holding the empty password. -/
def UnlockFacts {W : Type} (attempts : List (String × Bool)) (p : String)
    (script : List String) (r : Executed W) : Prop :=
  walletLoads r.trace = attempts.map Prod.fst
  ∧ (∃ unread, p :: script = attempts.map Prod.fst ++ unread
      ∧ (r.status = Status.returned → r.script = unread))
  ∧ (∀ a ∈ attempts.dropLast, a.2 = false)
  ∧ promptsShown r.trace = (attempts.filter (fun a => !a.2)).map (fun _ => masterPrompt)
  ∧ r.trace.count (Event.cout invalidLine)
      = (attempts.filter (fun a => !a.2 && a.1 != "")).length
  ∧ ((r.status = Status.returned
        ∧ attempts.getLast? = some (r.cli.m_masterPassword, true))
      ∨ (r.status = Status.awaitingInput ∧ r.cli.m_masterPassword = ""
        ∧ attempts.map Prod.fst = p :: script ∧ ∀ a ∈ attempts, a.2 = false))

/-- The secret hashed `n` times with `sha3`. -/
def hashTimes {W : Type} (c : Collaborators W) : Nat → Bytes → Bytes
  | 0, secret => secret
  | n + 1, secret => hashTimes c n (c.sha3 secret)

/-- The first byte of the address of the key pair of a secret, `k.address()[0]`. -/
def firstAddressByte {W : Type} (c : Collaborators W) (secret : Bytes) : Nat :=
  (KeyPair.ofSecret c secret).address.getD 0 0

/-- The session with other unlock passwords, display name and KDF parameters. -/
def KeyCLI.withExtras (s : KeyCLI) (unlocks : List String) (name : String)
    (kdfParams : List (String × String)) : KeyCLI :=
  { s with m_unlocks := unlocks, m_name := name, m_kdfParams := kdfParams }

/-- The run `r` with the session it leaves changed by `f`. -/
def Executed.mapCli {W : Type} (f : KeyCLI → KeyCLI) (r : Executed W) : Executed W :=
  { r with cli := f r.cli }

/-- The test collaborators with a store whose `recode` succeeds and records the
identifier (as a one-byte secret) with the new password it was given. -/
def recordingCollaborators : Collaborators TestWorld :=
  { testCollaborators with
    recode := fun w _ u newPassword _ _ =>
      (true, { w with stored := w.stored ++ [([u], newPassword)] }) }

/-! ## Theorems: the enumeration and option resolution -/

/-- C1 (defect): the enumerators `CreateWallet` and `New` have the same ordinal
(seven), because `List = FirstWallet` restarts the numbering one place after
`CreateWallet` took `FirstWallet + 1`; hence the mode stored by `--create-wallet`
equals the mode stored by `-n`, and the two sessions are equal. The remaining
family bounds hold: bare modes are below `FirstWallet`, wallet modes are not. -/
theorem createWallet_collides_with_new :
    OperationMode.CreateWallet.ord = 7 ∧ OperationMode.New.ord = 7
    ∧ OperationMode.CreateWallet = OperationMode.New
    ∧ (KeyCLI.init "" "" OperationMode.None).interpretOption 1 2 ["ethkey", "--create-wallet"]
      = (KeyCLI.init "" "" OperationMode.None).interpretOption 1 2 ["ethkey", "-n"]
    ∧ (∀ m ∈ [OperationMode.None, OperationMode.ListBare, OperationMode.NewBare,
          OperationMode.ImportBare, OperationMode.ExportBare, OperationMode.RecodeBare],
        m.ord < OperationMode.FirstWallet.ord)
    ∧ (∀ m ∈ [OperationMode.CreateWallet, OperationMode.List, OperationMode.New,
          OperationMode.Import, OperationMode.Export, OperationMode.Recode, OperationMode.Kill],
        OperationMode.FirstWallet.ord ≤ m.ord) := by
  decide

/-- C5 (defect): on `-n alice` the first `-n` branch is taken: the call returns
true with mode `New`, but the name is not stored and the index stays on `-n`;
the next call, on `alice`, is then rejected. -/
theorem new_with_name_not_captured :
    (KeyCLI.init "" "" OperationMode.None).interpretOption 1 3 ["ethkey", "-n", "alice"]
      = some ⟨true, 1, { KeyCLI.init "" "" OperationMode.None with m_mode := OperationMode.New }⟩
    ∧ ({ KeyCLI.init "" "" OperationMode.None with
          m_mode := OperationMode.New }).interpretOption 2 3 ["ethkey", "-n", "alice"]
      = some ⟨false, 2, { KeyCLI.init "" "" OperationMode.None with m_mode := OperationMode.New }⟩ := by
  decide

/-- C6 (defect): the short spellings of the help text are not options: from a
fresh session `-l`, `-e` and `-r` are rejected and leave the mode `None`, while
`--list`, `--export` and `--recode` are accepted and select their modes. -/
theorem short_spellings_rejected :
    (∀ a ∈ ["-l", "-e", "-r"],
      (KeyCLI.init "" "" OperationMode.None).interpretOption 1 2 ["ethkey", a]
        = some ⟨false, 1, KeyCLI.init "" "" OperationMode.None⟩)
    ∧ (KeyCLI.init "" "" OperationMode.None).interpretOption 1 2 ["ethkey", "--list"]
        = some ⟨true, 1, { KeyCLI.init "" "" OperationMode.None with m_mode := OperationMode.List }⟩
    ∧ (KeyCLI.init "" "" OperationMode.None).interpretOption 1 2 ["ethkey", "--export"]
        = some ⟨true, 1, { KeyCLI.init "" "" OperationMode.None with m_mode := OperationMode.Export }⟩
    ∧ (KeyCLI.init "" "" OperationMode.None).interpretOption 1 2 ["ethkey", "--recode"]
        = some ⟨true, 1, { KeyCLI.init "" "" OperationMode.None with m_mode := OperationMode.Recode }⟩ := by
  decide

/-- A property of an `if` follows from the property of each of its branches. -/
theorem holds_of_ite {α : Type} (P : α → Prop) (c : Prop) [Decidable c] (a b : α)
    (ha : c → P a) (hb : ¬ c → P b) : P (if c then a else b) := by
  by_cases h : c
  · rw [if_pos h]; exact ha h
  · rw [if_neg h]; exact hb h

set_option linter.unusedTactic false in
/-- Case analysis of one `interpretOption` call at an index inside the vector. -/
theorem interpretOption_cases (s : KeyCLI) (i : Nat) (argv : List String) (hi : i < argv.length) :
    StepFacts s i argv (s.interpretOption i argv.length argv) := by
  have hg := List.getElem?_eq_getElem hi
  unfold KeyCLI.interpretOption
  rw [hg]
  dsimp only
  repeat' refine holds_of_ite (StepFacts s i argv) _ _ _ (fun h => ?_) (fun h => ?_)
  all_goals first
    | exact absurd h.1 ‹¬(argv[i] = "-n" ∨ argv[i] = "--new")›
    | (refine ⟨_, rfl, le_refl _, hi, ?_, ?_⟩ <;> (simp [modeSetBy, hg, h]; done))
    | (rcases h with h | h <;> refine ⟨_, rfl, le_refl _, hi, ?_, ?_⟩ <;>
        (simp [modeSetBy, hg, h]; done))
    | (rw [List.getElem?_eq_getElem h.2]
       refine ⟨_, rfl, Nat.le_succ _, h.2, ?_, ?_⟩ <;> (simp [modeSetBy, hg, h.1]; done))
    | (rw [List.getElem?_eq_getElem h.2]
       rcases h.1 with e | e <;> refine ⟨_, rfl, Nat.le_succ _, h.2, ?_, ?_⟩ <;>
        (simp [modeSetBy, hg, e]; done))
    | (have h1 := Nat.lt_of_succ_lt h.2
       rw [List.getElem?_eq_getElem h.2, List.getElem?_eq_getElem h1]
       refine ⟨_, rfl, Nat.le_add_right _ _, h.2, ?_, ?_⟩ <;> (simp [modeSetBy, hg, h.1]; done))
    | (have h1 := Nat.lt_of_succ_lt h.2
       rw [List.getElem?_eq_getElem h.2, List.getElem?_eq_getElem h1]
       rcases h.1 with e | e <;> refine ⟨_, rfl, Nat.le_add_right _ _, h.2, ?_, ?_⟩ <;>
        (simp [modeSetBy, hg, e, h.2, List.getElem?_eq_getElem h1]; done))
    | (refine ⟨_, rfl, le_refl _, hi, ?_, ?_⟩ <;> (simp [modeSetBy, hg, *]; done))

/-- No token assigns the mode `None`. -/
theorem modeSetBy_ne_none (argc : Nat) (argv : List String) (p : Nat) :
    modeSetBy argc argv p ≠ some OperationMode.None := by
  unfold modeSetBy
  cases argv[p]? with
  | none => simp
  | some arg =>
    dsimp only
    repeat' refine holds_of_ite (fun o => o ≠ some OperationMode.None) _ _ _ (fun h => ?_) (fun h => ?_)
    all_goals decide

/-- The loop reaches the end of the vector when the fuel covers the tokens left,
and the mode it ends with is the one set by the last mode-setting option name. -/
theorem interpretAll_mode (argv : List String) :
    ∀ (fuel : Nat) (s : KeyCLI) (i : Nat), argv.length ≤ i + fuel →
      ∃ t, interpretAll fuel s i argv.length argv = some t
        ∧ t.cli.m_mode = (lastModeSet argv.length argv t.names).getD s.m_mode := by
  intro fuel
  induction fuel with
  | zero =>
    intro s i h
    have hn : ¬ i < argv.length := by omega
    exact ⟨⟨s, []⟩, by simp [interpretAll, hn], by simp [lastModeSet]⟩
  | succ fuel ih =>
    intro s i h
    by_cases hi : i < argv.length
    · obtain ⟨r, hr, hle, -, hmode, -⟩ := interpretOption_cases s i argv hi
      obtain ⟨t, ht, htm⟩ := ih r.cli (r.i + 1) (by omega)
      refine ⟨⟨t.cli, i :: t.names⟩, by simp [interpretAll, hi, hr, ht], ?_⟩
      show t.cli.m_mode = _
      rw [htm, hmode]
      unfold lastModeSet
      cases hm : modeSetBy argv.length argv i with
      | none => simp [List.filterMap_cons, hm]
      | some m => simp [List.filterMap_cons, hm, List.getLast?_cons]
    · exact ⟨⟨s, []⟩, by simp [interpretAll, hi], by simp [lastModeSet]⟩

/-- C4: last mode wins. Scanning any argument vector from any index reaches the
end of the vector, and the mode held at the end is the mode assigned by the last
mode-setting token that was read as an option name, or the initial mode if there
is none; and a mode other than `None` is never reset to `None`. -/
theorem last_mode_wins (s : KeyCLI) (i : Nat) (argv : List String) :
    ∃ t, interpretAll argv.length s i argv.length argv = some t
      ∧ t.cli.m_mode = (lastModeSet argv.length argv t.names).getD s.m_mode
      ∧ (s.m_mode ≠ OperationMode.None → t.cli.m_mode ≠ OperationMode.None) := by
  obtain ⟨t, ht, hm⟩ := interpretAll_mode argv argv.length s i (by omega)
  refine ⟨t, ht, hm, fun hs => ?_⟩
  rw [hm]
  cases hl : lastModeSet argv.length argv t.names with
  | none => simpa using hs
  | some m =>
    have hmem := List.mem_of_getLast?_eq_some hl
    obtain ⟨p, -, hp⟩ := List.mem_filterMap.1 hmem
    intro hnone
    have hm0 : m = OperationMode.None := by simpa using hnone
    subst hm0
    exact modeSetBy_ne_none _ _ p hp

/-- Witness for C4: `--import-bare a --recode-bare b` ends in mode `RecodeBare`,
the mode of the last mode-setting token, with option names at indices 1 to 4. -/
theorem last_mode_wins_witness :
    interpretAll 5 (KeyCLI.init "" "" OperationMode.None) 1 5
        ["ethkey", "--import-bare", "a", "--recode-bare", "b"]
      = some ⟨{ KeyCLI.init "" "" OperationMode.None with
                  m_mode := OperationMode.RecodeBare, m_inputs := ["a", "b"] }, [1, 2, 3, 4]⟩
    ∧ ∃ t, interpretAll 5 (KeyCLI.init "" "" OperationMode.None) 1 5
          ["ethkey", "--import-bare", "a", "--recode-bare", "b"] = some t
        ∧ t.cli.m_mode = (lastModeSet 5 ["ethkey", "--import-bare", "a", "--recode-bare", "b"]
            t.names).getD OperationMode.None
        ∧ ((KeyCLI.init "" "" OperationMode.None).m_mode ≠ OperationMode.None →
            t.cli.m_mode ≠ OperationMode.None) :=
  ⟨by decide, last_mode_wins (KeyCLI.init "" "" OperationMode.None) 1
    ["ethkey", "--import-bare", "a", "--recode-bare", "b"]⟩

/-- C7: with `argv` of length `argc` and `0 <= i < argc`, every read of `argv` made
by `interpretOption` is inside the vector (the call yields a result: no read
failed), and the index it leaves satisfies `i <= i_after < argc`. -/
theorem interpretOption_in_bounds (s : KeyCLI) (i argc : Nat) (argv : List String)
    (hlen : argv.length = argc) (hi : i < argc) :
    ∃ r, s.interpretOption i argc argv = some r ∧ i ≤ r.i ∧ r.i < argc := by
  subst hlen
  obtain ⟨r, hr, h1, h2, -⟩ := interpretOption_cases s i argv hi
  exact ⟨r, hr, h1, h2⟩

/-- Witness for C7: the second token of a three-token vector. -/
theorem interpretOption_in_bounds_witness :
    ∃ r, (KeyCLI.init "" "" OperationMode.None).interpretOption 1 3
        ["ethkey", "--lock", "pw"] = some r ∧ 1 ≤ r.i ∧ r.i < 3 :=
  interpretOption_in_bounds _ 1 3 ["ethkey", "--lock", "pw"] (by decide) (by decide)

/-- C8: fall-through is all or nothing. A token that matches no flag branch is
appended to the inputs, with result true, when the mode is one of the five
input-collecting modes, and is rejected with result false otherwise; the index
is not advanced and nothing else in the session changes (on false, nothing). -/
theorem fall_through_all_or_nothing (s : KeyCLI) (i argc : Nat) (argv : List String)
    (arg : String) (harg : argv[i]? = some arg) (hno : MatchesNoFlag arg i argc) :
    s.interpretOption i argc argv
      = some (if s.m_mode.collectsInputs
          then ⟨true, i, { s with m_inputs := s.m_inputs ++ [arg] }⟩
          else ⟨false, i, s⟩) := by
  obtain ⟨h0, h1, h2⟩ := hno
  simp only [flagsNoArgument, flagsOneArgument, flagsTwoArguments, List.mem_cons,
    List.mem_singleton, List.not_mem_nil, or_false, not_or] at h0 h1 h2
  obtain ⟨a1, a2, a3, a4, a5, a6, a7, a8, a9, a10, a11, a12⟩ := h0
  have b1 : ¬ (arg = "--wallet-path" ∧ i + 1 < argc) := fun h => h1 (by simp [h.1]) h.2
  have b2 : ¬ (arg = "--secrets-path" ∧ i + 1 < argc) := fun h => h1 (by simp [h.1]) h.2
  have b3 : ¬ ((arg = "-m" ∨ arg = "--master") ∧ i + 1 < argc) :=
    fun h => h1 (by rcases h.1 with e | e <;> simp [e]) h.2
  have b4 : ¬ (arg = "--unlock" ∧ i + 1 < argc) := fun h => h1 (by simp [h.1]) h.2
  have b5 : ¬ (arg = "--lock" ∧ i + 1 < argc) := fun h => h1 (by simp [h.1]) h.2
  have b6 : ¬ (arg = "--kdf" ∧ i + 1 < argc) := fun h => h1 (by simp [h.1]) h.2
  have b7 : ¬ (arg = "--kdf-param" ∧ i + 2 < argc) := fun h => h2 (by simp [h.1]) h.2
  have b8 : ¬ ((arg = "-i" ∨ arg = "--import") ∧ i + 2 < argc) :=
    fun h => h2 (by rcases h.1 with e | e <;> simp [e]) h.2
  unfold KeyCLI.interpretOption
  rw [harg]
  dsimp only
  rw [if_neg (by simp [a1, a2]), if_neg b1, if_neg b2, if_neg b3, if_neg b4, if_neg b5,
    if_neg b6, if_neg b7, if_neg a3, if_neg a4, if_neg a5, if_neg a6, if_neg a7, if_neg a8,
    if_neg a9, if_neg (by simp [a1, a2]), if_neg b8, if_neg a10, if_neg a11, if_neg a12]
  have hiff : (s.m_mode = OperationMode.ImportBare ∨ s.m_mode = OperationMode.Recode
      ∨ s.m_mode = OperationMode.Export ∨ s.m_mode = OperationMode.RecodeBare
      ∨ s.m_mode = OperationMode.ExportBare) ↔ s.m_mode.collectsInputs = true := by
    simp only [OperationMode.collectsInputs, decide_eq_true_eq]
    constructor <;> (intro h; rcases h with h | h | h | h | h <;> simp [h])
  by_cases hc : s.m_mode.collectsInputs = true
  · rw [if_pos (hiff.2 hc), if_pos hc]
  · rw [if_neg (fun h => hc (hiff.1 h)), if_neg hc]

/-- Witness for C8: `--lock` as the last token, in mode `ImportBare`, is collected
as an input. -/
theorem fall_through_all_or_nothing_witness :
    ({ KeyCLI.init "" "" OperationMode.None with
        m_mode := OperationMode.ImportBare }).interpretOption 2 3 ["ethkey", "--import-bare", "--lock"]
      = some ⟨true, 2, { KeyCLI.init "" "" OperationMode.None with
          m_mode := OperationMode.ImportBare, m_inputs := ["--lock"] }⟩ :=
  fall_through_all_or_nothing _ 2 3 ["ethkey", "--import-bare", "--lock"] "--lock"
    (by decide) (by decide)
/-! ## Theorems: the confirm-twice protocol -/

/-- The loop of the `KeyManager` overload behaves as `createPassword`. -/
theorem createPasswordKM_loop_eq (prompt : String) (rs : List String) :
    createPasswordKM.loop prompt rs = createPassword prompt rs := by
  induction rs using createPassword.induct prompt with
  | case1 => rfl
  | case2 a => rfl
  | case3 a rest => simp [createPasswordKM.loop, createPassword]
  | case4 a b rest h ih =>
    simp only [createPasswordKM.loop, createPassword, h, if_false, ih]

/-- Every event of `createPassword` is a prompt or the mismatch report. -/
theorem createPassword_events (prompt : String) (rs : List String) :
    ∀ e ∈ (createPassword prompt rs).trace,
      (∃ q, e = Event.getPassword q) ∨ e = Event.cout differentLine := by
  induction rs using createPassword.induct prompt with
  | case1 => simp [createPassword]
  | case2 a => simp [createPassword]
  | case3 a rest => simp [createPassword]
  | case4 a b rest h ih =>
    intro e he
    simp only [createPassword, h, if_false, List.mem_append, List.mem_cons,
      List.mem_singleton, List.not_mem_nil, or_false] at he
    rcases he with (he | he | he) | he
    · exact Or.inl ⟨_, he⟩
    · exact Or.inl ⟨_, he⟩
    · exact Or.inr he
    · exact ih e he

/-- When pair `k` is the first equal pair, `createPassword` returns its value after
`k` mismatch reports and leaves the responses after that pair. -/
theorem createPassword_of_firstEqualPair (prompt : String) :
    ∀ (k : Nat) (rs : List String) (v : String), FirstEqualPair rs k v →
      createPassword prompt rs
        = ⟨confirmTrace prompt k, .returned v (rs.drop (2 * (k + 1)))⟩ := by
  intro k
  induction k with
  | zero =>
    intro rs v ⟨h0, h1, _⟩
    match rs, h0, h1 with
    | a :: b :: rest, h0, h1 =>
      simp only [Nat.mul_zero, List.getElem?_cons_zero, Option.some.injEq, Nat.zero_add,
        List.getElem?_cons_succ] at h0 h1
      subst h0; subst h1
      simp [createPassword, confirmTrace]
  | succ k ih =>
    intro rs v ⟨h0, h1, hfirst⟩
    match rs, h0, h1, hfirst with
    | [], h0, _, _ => simp at h0
    | [a], _, h1, _ => simp at h1
    | a :: b :: rest, h0, h1, hfirst =>
      have hab : a ≠ b := by
        have := hfirst 0 (Nat.succ_pos k)
        simpa using this
      have hrest : FirstEqualPair rest k v := by
        refine ⟨?_, ?_, fun j hj => ?_⟩
        · simpa [Nat.mul_succ] using h0
        · simpa [Nat.mul_succ] using h1
        · have := hfirst (j + 1) (Nat.succ_lt_succ hj)
          simpa [Nat.mul_succ] using this
      have hstep := ih rest v hrest
      simp only [createPassword, hab, if_false, hstep]
      simp [confirmTrace, List.replicate_succ, Nat.mul_succ]

/-- When `createPassword` returns, it returns the value of the first equal pair
and leaves the responses after that pair. -/
theorem createPassword_returned (prompt : String) (rs : List String) :
    ∀ v rest, (createPassword prompt rs).outcome = .returned v rest →
      ∃ k, FirstEqualPair rs k v ∧ rest = rs.drop (2 * (k + 1)) := by
  induction rs using createPassword.induct prompt with
  | case1 => intro v rest h; simp [createPassword] at h
  | case2 a => intro v rest h; simp [createPassword] at h
  | case3 a rest0 =>
    intro v rest h
    simp only [createPassword, if_true, Outcome.returned.injEq] at h
    obtain ⟨hv, hr⟩ := h
    subst hv; subst hr
    exact ⟨0, ⟨by simp, by simp, fun j hj => absurd hj (Nat.not_lt_zero j)⟩, by simp⟩
  | case4 a b rest0 hab ih =>
    intro v rest h
    simp only [createPassword, hab, if_false] at h
    obtain ⟨k, ⟨h0, h1, hfirst⟩, hr⟩ := ih v rest h
    refine ⟨k + 1, ⟨by simpa [Nat.mul_succ] using h0, by simpa [Nat.mul_succ] using h1, ?_⟩, ?_⟩
    · intro j hj
      cases j with
      | zero => simpa using hab
      | succ j =>
        have := hfirst j (Nat.lt_of_succ_lt_succ hj)
        simpa [Nat.mul_succ] using this
    · simpa [Nat.mul_succ] using hr

/-- The trace of a return at pair `k` holds `k` mismatch reports and `2 (k + 1)`
prompts. -/
theorem confirmTrace_counts (prompt : String) (k : Nat) :
    (confirmTrace prompt k).count (Event.cout differentLine) = k
      ∧ (promptsShown (confirmTrace prompt k)).length = 2 * (k + 1) := by
  induction k with
  | zero => simp [confirmTrace, promptsShown]
  | succ k ih =>
    obtain ⟨h1, h2⟩ := ih
    simp only [confirmTrace, List.replicate_succ, List.flatten_cons, List.append_assoc] at h1 h2 ⊢
    constructor
    · rw [List.count_append, h1]
      simp [List.count_cons]
      omega
    · simp only [promptsShown, List.filterMap_append] at h2 ⊢
      simp only [List.length_append] at h2 ⊢
      rw [h2]
      simp
      omega

/-- C9: the confirm-twice protocol. If pair `k` of the scripted responses is the
first pair of equal entries, with value `v`, then `createPassword` returns `v`
having read exactly the `2 (k + 1)` responses up to that pair and having
reported a mismatch exactly `k` times, and the `KeyManager` overload returns
`v` as the first component of its pair, having read the same responses.
Conversely `createPassword` returns only so: a returned value is the value of
the first equal pair. -/
theorem createPassword_confirm_twice (prompt : String) (rs : List String) :
    (∀ k v, FirstEqualPair rs k v →
      createPassword prompt rs
          = ⟨confirmTrace prompt k, .returned v (rs.drop (2 * (k + 1)))⟩
        ∧ (confirmTrace prompt k).count (Event.cout differentLine) = k
        ∧ (promptsShown (confirmTrace prompt k)).length = 2 * (k + 1)
        ∧ ∀ (haveHint : String → Bool) (stdin : List String), ∃ hint words,
            (createPasswordKM haveHint prompt rs stdin).outcome
              = .returned ((v, hint), words) (rs.drop (2 * (k + 1))))
    ∧ (∀ v rest, (createPassword prompt rs).outcome = .returned v rest →
        ∃ k, FirstEqualPair rs k v ∧ rest = rs.drop (2 * (k + 1)))
    ∧ (∀ (haveHint : String → Bool) (stdin : List String) p rest,
        (createPasswordKM haveHint prompt rs stdin).outcome = .returned p rest →
          (createPassword prompt rs).outcome = .returned p.1.1 rest) := by
  refine ⟨fun k v hk => ?_, createPassword_returned prompt rs, fun haveHint stdin p rest h => ?_⟩
  · have hc := createPassword_of_firstEqualPair prompt k rs v hk
    refine ⟨hc, (confirmTrace_counts prompt k).1, (confirmTrace_counts prompt k).2,
      fun haveHint stdin => ?_⟩
    unfold createPasswordKM
    rw [createPasswordKM_loop_eq, hc]
    dsimp only
    by_cases hh : haveHint v = true
    · exact ⟨"", stdin, by simp [hh]⟩
    · cases stdin with
      | nil => exact ⟨"", [], by simp [hh]⟩
      | cons hint words => exact ⟨hint, words, by simp [hh]⟩
  · unfold createPasswordKM at h
    rw [createPasswordKM_loop_eq] at h
    rcases hc : createPassword prompt rs with ⟨t, o⟩
    rw [hc] at h
    cases o with
    | awaiting => simp at h
    | returned pass rest0 =>
      dsimp only at h
      by_cases hh : haveHint pass = true
      · simp only [hh, not_true_eq_false, if_false, Outcome.returned.injEq] at h
        obtain ⟨hp, hr⟩ := h
        subst hp; subst hr; rfl
      · cases stdin with
        | nil =>
          simp only [hh, Bool.false_eq_true, not_false_eq_true, if_true,
            Outcome.returned.injEq] at h
          obtain ⟨hp, hr⟩ := h
          subst hp; subst hr; rfl
        | cons hint words =>
          simp only [hh, Bool.false_eq_true, not_false_eq_true, if_true,
            Outcome.returned.injEq] at h
          obtain ⟨hp, hr⟩ := h
          subst hp; subst hr; rfl

/-- Witness for C9: on the responses a, b, c, c, d the first equal pair is pair 1;
the password `c` is returned after one mismatch report and `d` is left unread. -/
theorem createPassword_confirm_twice_witness :
    createPassword "p" ["a", "b", "c", "c", "d"] = ⟨confirmTrace "p" 1, .returned "c" ["d"]⟩
    ∧ (createPasswordKM (fun _ => false) "p" ["a", "b", "c", "c", "d"] ["hint"]).outcome
        = .returned (("c", "hint"), []) ["d"] :=
  ⟨((createPassword_confirm_twice "p" ["a", "b", "c", "c", "d"]).1 1 "c"
      ⟨by decide, by decide, by decide⟩).1, by decide⟩

/-! ## Theorems: execution -/

/-- The terminal events of `createPassword` contain no wallet creation. -/
theorem walletCreates_createPassword (prompt : String) (rs : List String) :
    walletCreates (createPassword prompt rs).trace = [] := by
  unfold walletCreates
  rw [List.filterMap_eq_nil_iff]
  intro e he
  rcases createPassword_events prompt rs e he with ⟨q, rfl⟩ | rfl <;> rfl

/-- The terminal events of `createPassword` contain no console error line. -/
theorem cerr_not_mem_createPassword (prompt text : String) (rs : List String) :
    Event.cerr text ∉ (createPassword prompt rs).trace := by
  intro he
  rcases createPassword_events prompt rs _ he with ⟨q, h⟩ | h <;> cases h

/-- C3: in `CreateWallet` mode `execute` calls `wallet.create` exactly when the
master password it ends up holding is non-empty, and then once, with that
password: the world it leaves is the one `wallet.create` makes of the initial
world with that password, and the initial world itself when the held password
is empty; it reports the abort exactly when it returns holding the empty
password. The held password is the pre-supplied one if that is non-empty (and
then nothing is prompted), otherwise the one the confirm-twice protocol
returns; while that protocol is still waiting for responses nothing is
created. -/
theorem createWallet_iff_password_nonempty {W : Type} (c : Collaborators W) (fuel : Nat)
    (s : KeyCLI) (script : List String) (w : W) (hmode : s.m_mode = OperationMode.CreateWallet) :
    ((s.execute c fuel script w).world
        = if (s.execute c fuel script w).cli.m_masterPassword ≠ ""
          then c.walletCreate w s.m_walletPath s.m_secretsPath
            (s.execute c fuel script w).cli.m_masterPassword
          else w)
    ∧ (walletCreates (s.execute c fuel script w).trace
        = if (s.execute c fuel script w).cli.m_masterPassword ≠ ""
          then [(s.execute c fuel script w).cli.m_masterPassword] else [])
    ∧ (Event.cerr "Aborted (empty password not allowed).\n" ∈ (s.execute c fuel script w).trace
        ↔ (s.execute c fuel script w).status = Status.returned
            ∧ (s.execute c fuel script w).cli.m_masterPassword = "")
    ∧ (s.m_masterPassword ≠ "" →
        (s.execute c fuel script w).status = Status.returned
          ∧ (s.execute c fuel script w).cli.m_masterPassword = s.m_masterPassword
          ∧ promptsShown (s.execute c fuel script w).trace = [])
    ∧ (s.m_masterPassword = "" →
        (∀ v rest, (createPassword masterCreatePrompt script).outcome = .returned v rest →
          (s.execute c fuel script w).status = Status.returned
            ∧ (s.execute c fuel script w).cli.m_masterPassword = v
            ∧ (s.execute c fuel script w).script = rest)
        ∧ ((createPassword masterCreatePrompt script).outcome = .awaiting →
          (s.execute c fuel script w).status = Status.awaitingInput)) := by
  unfold KeyCLI.execute
  rw [if_pos hmode]
  by_cases hp : s.m_masterPassword = ""
  · rw [if_pos hp]
    have hw := walletCreates_createPassword masterCreatePrompt script
    have hc := cerr_not_mem_createPassword masterCreatePrompt
      "Aborted (empty password not allowed).\n" script
    rcases hrun : createPassword masterCreatePrompt script with ⟨t, o⟩
    rw [hrun] at hw hc
    cases o with
    | awaiting =>
      dsimp only at hw hc ⊢
      refine ⟨by simp [hp], ?_, ?_, fun h => absurd hp h,
        fun _ => ⟨fun v rest h => (by cases h), fun _ => rfl⟩⟩
      · simpa [walletCreates, hp] using hw
      · simpa using hc
    | returned master rest0 =>
      dsimp only at hw hc ⊢
      by_cases hm : master = ""
      · rw [if_pos hm]
        refine ⟨by simp [hm], ?_, ?_, fun h => absurd hp h,
          fun _ => ⟨fun v rest h => ?_, fun h => (by cases h)⟩⟩
        · simp only [walletCreates] at hw
          simp [walletCreates, hw, hm, List.filterMap_append]
        · simp [hm]
        · cases h; exact ⟨rfl, rfl, rfl⟩
      · rw [if_neg hm]
        refine ⟨by simp [hm], ?_, ?_, fun h => absurd hp h,
          fun _ => ⟨fun v rest h => ?_, fun h => (by cases h)⟩⟩
        · simp only [walletCreates] at hw
          simp [walletCreates, hw, hm, List.filterMap_append]
        · simpa [hm] using hc
        · cases h; exact ⟨rfl, rfl, rfl⟩
  · rw [if_neg hp]
    dsimp only
    rw [if_neg hp]
    refine ⟨by simp [hp], ?_, ?_, fun _ => ⟨rfl, rfl, by simp [promptsShown]⟩,
      fun h => absurd h hp⟩
    · simp [walletCreates, hp]
    · simp [hp]

/-- Witness for C3: with no master password supplied and the responses pw, pw the
wallet is created once, with password pw, and the world then holds a wallet
with that master password; with the empty string confirmed the world is left
as it was. -/
theorem createWallet_iff_password_nonempty_witness :
    walletCreates ((testSession OperationMode.CreateWallet).execute testCollaborators 0
        ["pw", "pw"] testWorld).trace = ["pw"]
    ∧ ((testSession OperationMode.CreateWallet).execute testCollaborators 0
        ["pw", "pw"] testWorld).world = ⟨true, "pw", []⟩
    ∧ ((testSession OperationMode.CreateWallet).execute testCollaborators 0
        ["", ""] testWorld).world = testWorld
    ∧ ((testSession OperationMode.CreateWallet).execute testCollaborators 0
          ["pw", "pw"] testWorld).world
        = if ((testSession OperationMode.CreateWallet).execute testCollaborators 0
              ["pw", "pw"] testWorld).cli.m_masterPassword ≠ ""
          then testCollaborators.walletCreate testWorld
            (testSession OperationMode.CreateWallet).m_walletPath
            (testSession OperationMode.CreateWallet).m_secretsPath
            ((testSession OperationMode.CreateWallet).execute testCollaborators 0
              ["pw", "pw"] testWorld).cli.m_masterPassword
          else testWorld :=
  ⟨by decide, by decide, by decide,
    (createWallet_iff_password_nonempty testCollaborators 0
      (testSession OperationMode.CreateWallet) ["pw", "pw"] testWorld (by decide)).1⟩

/-- C2 (defect): a session in mode `New` (as `-n` selects it) with master password
pw, run where no wallet exists, does not check that the wallet exists: it takes
the `CreateWallet` branch and calls `wallet.create`; without a master password
it runs the confirm-twice creation prompt. The same session in mode `Import`
checks, reports and exits with status -1. In every world, the run of mode
`New` is the run of mode `CreateWallet`. -/
theorem new_mode_creates_wallet :
    (({ testSession OperationMode.New with m_masterPassword := "pw" }).execute
        testCollaborators 0 [] testWorld).trace
      = [Event.keyManager "wallet" "secrets", Event.walletCreate "pw"]
    ∧ (({ testSession OperationMode.New with m_masterPassword := "pw" }).execute
        testCollaborators 0 [] testWorld).status = Status.returned
    ∧ ((testSession OperationMode.New).execute testCollaborators 0 ["x", "x"] testWorld).trace
      = [Event.keyManager "wallet" "secrets", Event.getPassword masterCreatePrompt,
          Event.getPassword confirmPrompt, Event.walletCreate "x"]
    ∧ (({ testSession OperationMode.Import with m_masterPassword := "pw" }).execute
        testCollaborators 0 [] testWorld).trace
      = [Event.keyManager "wallet" "secrets", Event.walletExists,
          Event.cerr "Couldn't open wallet. Does it exist?\n"]
    ∧ (({ testSession OperationMode.Import with m_masterPassword := "pw" }).execute
        testCollaborators 0 [] testWorld).status = Status.exited (-1)
    ∧ (∀ (s : KeyCLI) (script : List String) (w : TestWorld),
        s.m_mode = OperationMode.New →
          s.execute testCollaborators 0 script w
            = ({ s with m_mode := OperationMode.CreateWallet }).execute
                testCollaborators 0 script w) := by
  refine ⟨by decide, by decide, by decide, by decide, by decide, fun s script w h => ?_⟩
  have h2 : s = { s with m_mode := OperationMode.CreateWallet } := by
    cases s; simp only at h; subst h; rfl
  rw [← h2]

/-- The terminal events of `createPassword` hand no password to the store. -/
theorem protectingPasswords_createPassword (prompt : String) (rs : List String) :
    protectingPasswords (createPassword prompt rs).trace = [] := by
  unfold protectingPasswords
  rw [List.filterMap_eq_nil_iff]
  intro e he
  rcases createPassword_events prompt rs e he with ⟨q, rfl⟩ | rfl <;> rfl

/-- A value returned by `createPassword` was entered twice in a row, right before
the responses left unread. -/
theorem createPassword_entered (prompt : String) (rs : List String) :
    ∀ v rest, (createPassword prompt rs).outcome = .returned v rest →
      ∃ before, rs = before ++ v :: v :: rest := by
  induction rs using createPassword.induct prompt with
  | case1 => intro v rest h; simp [createPassword] at h
  | case2 a => intro v rest h; simp [createPassword] at h
  | case3 a rest0 =>
    intro v rest h
    simp only [createPassword, if_true, Outcome.returned.injEq] at h
    obtain ⟨hv, hr⟩ := h
    subst hv; subst hr
    exact ⟨[], rfl⟩
  | case4 a b rest0 hab ih =>
    intro v rest h
    simp only [createPassword, hab, if_false] at h
    obtain ⟨before, hb⟩ := ih v rest h
    exact ⟨a :: b :: before, by rw [hb]; rfl⟩

/-- An origin in the responses left unread is an origin in the whole script. -/
theorem LockOrigin.of_rest {s : KeyCLI} {script rest : List String} {p : String}
    (before : List String) (h : script = before ++ rest) (hp : LockOrigin s rest p) :
    LockOrigin s script p := by
  rcases hp with hp | ⟨h0, b, a, hba⟩
  · exact Or.inl hp
  · exact Or.inr ⟨h0, before ++ b, a, by rw [h, hba, List.append_assoc]⟩

/-- What `lockPassword` returns has a lock origin, it hands nothing to the store,
and it leaves a tail of the script. -/
theorem lockPassword_returned (s : KeyCLI) (name : String) (script : List String)
    (t : List Event) (v : String) (rest : List String)
    (h : s.lockPassword name script = ⟨t, .returned v rest⟩) :
    LockOrigin s script v ∧ protectingPasswords t = []
      ∧ ∃ before, script = before ++ rest := by
  unfold KeyCLI.lockPassword at h
  by_cases hl : s.m_lock = ""
  · rw [if_pos hl] at h
    have ho : (createPassword ("Enter a password with which to secure account " ++ name ++ ": ")
        script).outcome = .returned v rest := by rw [h]
    have ht := protectingPasswords_createPassword
      ("Enter a password with which to secure account " ++ name ++ ": ") script
    rw [h] at ht
    obtain ⟨before, hb⟩ := createPassword_entered _ script v rest ho
    exact ⟨Or.inr ⟨hl, before, rest, hb⟩, ht, before ++ [v, v], by rw [hb]; simp⟩
  · rw [if_neg hl] at h
    cases h
    exact ⟨Or.inl ⟨hl, rfl⟩, rfl, [], rfl⟩

/-- What `lockPassword` shows while it waits hands nothing to the store. -/
theorem lockPassword_awaiting (s : KeyCLI) (name : String) (script : List String)
    (t : List Event) (h : s.lockPassword name script = ⟨t, .awaiting⟩) :
    protectingPasswords t = [] := by
  unfold KeyCLI.lockPassword at h
  by_cases hl : s.m_lock = ""
  · rw [if_pos hl] at h
    have ht := protectingPasswords_createPassword
      ("Enter a password with which to secure account " ++ name ++ ": ") script
    rw [h] at ht
    exact ht
  · rw [if_neg hl] at h
    cases h

/-- The probe of an input hands no password to the store. -/
theorem importProbe_passwords {W : Type} (c : Collaborators W) (s : KeyCLI) (w : W) (i : String) :
    protectingPasswords (s.importProbe c w i).trace = [] := by
  unfold KeyCLI.importProbe
  split
  · split <;> rfl
  · rfl

/-- Every password the `ImportBare` loop hands to the store has a lock origin. -/
theorem importBare_passwords {W : Type} (c : Collaborators W) (s : KeyCLI) :
    ∀ (inputs script : List String) (w : W),
      ∀ p ∈ protectingPasswords (s.importBare c inputs script w).trace, LockOrigin s script p := by
  intro inputs
  induction inputs with
  | nil => intro script w p hp; simp [KeyCLI.importBare, protectingPasswords] at hp
  | cons i inputs ih =>
    intro script w p hp
    rw [KeyCLI.importBare] at hp
    dsimp only at hp
    have hpr := importProbe_passwords c s w i
    generalize s.importProbe c w i = pr at hp hpr
    split at hp
    · split at hp
      · rename_i t2 hlp
        have ht2 := lockPassword_awaiting s _ script t2 hlp
        simp only [protectingPasswords] at hpr ht2
        simp [protectingPasswords, List.filterMap_append, hpr, ht2] at hp
      · rename_i t2 password rest hlp
        obtain ⟨horigin, ht2, before, hb⟩ := lockPassword_returned s _ script t2 password rest hlp
        simp only [protectingPasswords] at hpr ht2
        simp only [Executed.after, protectingPasswords, List.filterMap_append, hpr, ht2,
          List.nil_append, List.filterMap_cons, List.filterMap_nil, List.mem_append,
          List.mem_cons] at hp
        rcases hp with hp | hp
        · simp only [List.not_mem_nil, or_false] at hp
          subst hp
          exact horigin
        · exact LockOrigin.of_rest before hb (ih rest _ p hp)
    · simp only [protectingPasswords] at hpr
      simp only [Executed.after, protectingPasswords, List.filterMap_append, hpr,
        List.nil_append, List.filterMap_cons, List.filterMap_nil] at hp
      exact ih script _ p hp

/-- The supplier of the existing password hands nothing to the store and leaves
a tail of the script. -/
theorem existingPassword_facts {W : Type} (c : Collaborators W) (s : KeyCLI) (w : W) (u : H128)
    (script : List String) :
    protectingPasswords (s.existingPassword c w u script).trace = []
      ∧ ∀ existing rest, (s.existingPassword c w u script).outcome = .returned existing rest →
          ∃ before, script = before ++ rest := by
  unfold KeyCLI.existingPassword
  split
  · cases script with
    | nil => exact ⟨rfl, fun e r h => by simp [getPassword] at h⟩
    | cons r0 rest0 =>
      refine ⟨rfl, fun e r h => ?_⟩
      simp only [getPassword, Outcome.returned.injEq] at h
      exact ⟨[r0], by rw [← h.2]; rfl⟩
  · refine ⟨rfl, fun e r h => ?_⟩
    simp only [Outcome.returned.injEq] at h
    exact ⟨[], by rw [← h.2]; rfl⟩

/-- Every password the `RecodeBare` loop hands to the store has a lock origin. -/
theorem recodeBare_passwords {W : Type} (c : Collaborators W) (s : KeyCLI) :
    ∀ (inputs script : List String) (w : W),
      ∀ p ∈ protectingPasswords (s.recodeBare c inputs script w).trace, LockOrigin s script p := by
  intro inputs
  induction inputs with
  | nil => intro script w p hp; simp [KeyCLI.recodeBare, protectingPasswords] at hp
  | cons i inputs ih =>
    intro script w p hp
    rw [KeyCLI.recodeBare] at hp
    dsimp only at hp
    split at hp
    · split at hp
      · rename_i t1 hlp
        have ht1 := lockPassword_awaiting s _ script t1 hlp
        simp only [protectingPasswords] at ht1
        simp [protectingPasswords, ht1] at hp
      · rename_i t1 password rest hlp
        obtain ⟨horigin, ht1, before, hb⟩ := lockPassword_returned s _ script t1 password rest hlp
        obtain ⟨hsup, htail⟩ := existingPassword_facts c s w (c.fromUUID i) rest
        simp only [protectingPasswords] at ht1 hsup
        split at hp
        · rename_i t2 hex
          rw [hex] at hsup
          simp only [protectingPasswords, List.filterMap_append, ht1, hsup,
            List.nil_append, List.filterMap_cons, List.filterMap_nil, List.append_nil,
            List.mem_singleton] at hp
          subst hp
          exact horigin
        · rename_i t2 existing rest2 hex
          rw [hex] at hsup
          obtain ⟨before2, hb2⟩ := htail existing rest2 (by rw [hex])
          simp only [Executed.after, protectingPasswords, List.filterMap_append, ht1, hsup,
            List.nil_append, List.filterMap_cons, List.filterMap_nil, List.append_nil,
            List.mem_append, List.mem_cons] at hp
          rcases hp with hp | hp
          · simp only [List.not_mem_nil, or_false] at hp
            subst hp
            exact horigin
          · exact LockOrigin.of_rest before hb (LockOrigin.of_rest before2 hb2 (ih rest2 _ p hp))
    · simp only [Executed.after, protectingPasswords, List.nil_append, List.filterMap_cons,
        List.singleton_append] at hp
      exact ih script _ p hp

/-- The calls made with no lock password configured and the empty string entered
twice at the prompt: `execute` hands the empty password to `importSecret` in
`NewBare` and in `ImportBare` mode, and to `recode` in `RecodeBare` mode. -/
theorem empty_protecting_password :
    ((testSession OperationMode.NewBare).execute testCollaborators 1 ["", ""] testWorld).trace
      = [Event.secretStore "secrets",
          Event.getPassword "Enter a password with which to secure this account: ",
          Event.getPassword confirmPrompt, Event.secretRandom, Event.importSecret [2] "",
          Event.cout "Created key abridged\n", Event.cout "Address: hex\n",
          Event.cout "ICAP: icap\n"]
    ∧ "" ∈ protectingPasswords (({ testSession OperationMode.ImportBare with
          m_inputs := ["0123456789abcdef0123456789abcdef0123456789abcdef0123456789abcdef"] }).execute
        testCollaborators 0 ["", ""] testWorld).trace
    ∧ "" ∈ protectingPasswords (({ testSession OperationMode.RecodeBare with
          m_inputs := ["k"] }).execute testCollaborators 0 ["", "", "old"] testWorld).trace := by
  refine ⟨by decide, by decide, by decide⟩

/-- Where the protecting passwords in the calls of `execute` come from: in
`NewBare`, `ImportBare` and `RecodeBare` mode every password named in an
`importSecret` call, or in a `recode` call as the new password, is the
configured lock password when that is non-empty, and otherwise a value that
was entered twice in a row on the terminal. -/
theorem protecting_password_origin {W : Type} (c : Collaborators W) (fuel : Nat) (s : KeyCLI)
    (script : List String) (w : W)
    (hmode : s.m_mode = OperationMode.NewBare ∨ s.m_mode = OperationMode.ImportBare
      ∨ s.m_mode = OperationMode.RecodeBare) :
    ∀ p ∈ protectingPasswords (s.execute c fuel script w).trace,
      LockOrigin s script p ∧ (s.m_lock ≠ "" → p = s.m_lock ∧ p ≠ "") := by
  have key : ∀ p ∈ protectingPasswords (s.execute c fuel script w).trace,
      LockOrigin s script p := by
    intro p hp
    unfold KeyCLI.execute at hp
    rcases hmode with h | h | h
    · have h1 : ¬ s.m_mode = OperationMode.CreateWallet := by rw [h]; decide
      have h2 : s.m_mode.ord < OperationMode.FirstWallet.ord := by rw [h]; decide
      have h3 : ¬ s.m_mode = OperationMode.ListBare := by rw [h]; decide
      rw [if_neg h1, if_pos h2, if_neg h3, if_pos h] at hp
      by_cases hl : s.m_lock = ""
      · rw [if_pos hl] at hp
        have ht := protectingPasswords_createPassword
          "Enter a password with which to secure this account: " script
        have hent := createPassword_entered
          "Enter a password with which to secure this account: " script
        rcases hrun : createPassword "Enter a password with which to secure this account: "
          script with ⟨t, o⟩
        rw [hrun] at hp ht hent
        simp only [protectingPasswords] at ht
        cases o with
        | awaiting =>
          simp [Executed.after, protectingPasswords, ht] at hp
        | returned lock rest =>
          obtain ⟨before, hb⟩ := hent lock rest rfl
          dsimp only at hp
          rcases hk : KeyCLI.makeKey c { s with m_lock := lock } fuel w with ⟨_ | k, w1⟩
          · rw [hk] at hp
            simp [Executed.after, protectingPasswords, List.filterMap_append, ht] at hp
          · rw [hk] at hp
            simp only [Executed.after, protectingPasswords, List.filterMap_append, ht,
              List.singleton_append, List.filterMap_cons, List.filterMap_nil, List.nil_append,
              List.mem_singleton] at hp
            subst hp
            exact Or.inr ⟨hl, before, rest, hb⟩
      · rw [if_neg hl] at hp
        dsimp only at hp
        rcases hk : KeyCLI.makeKey c { s with m_lock := s.m_lock } fuel w with ⟨_ | k, w1⟩
        · rw [hk] at hp
          simp [Executed.after, protectingPasswords] at hp
        · rw [hk] at hp
          simp only [Executed.after, protectingPasswords, List.filterMap_append,
            List.singleton_append, List.filterMap_cons, List.filterMap_nil, List.nil_append,
            List.mem_singleton] at hp
          subst hp
          exact Or.inl ⟨hl, rfl⟩
    · rw [h] at hp
      simp only [show ¬ OperationMode.ImportBare = OperationMode.CreateWallet by decide,
        show OperationMode.ImportBare.ord < OperationMode.FirstWallet.ord by decide,
        show ¬ OperationMode.ImportBare = OperationMode.ListBare by decide,
        show ¬ OperationMode.ImportBare = OperationMode.NewBare by decide,
        if_true, if_false, Executed.after, protectingPasswords, List.singleton_append,
        List.filterMap_cons] at hp
      exact importBare_passwords c s _ script w p hp
    · rw [h] at hp
      simp only [show ¬ OperationMode.RecodeBare = OperationMode.CreateWallet by decide,
        show OperationMode.RecodeBare.ord < OperationMode.FirstWallet.ord by decide,
        show ¬ OperationMode.RecodeBare = OperationMode.ListBare by decide,
        show ¬ OperationMode.RecodeBare = OperationMode.NewBare by decide,
        show ¬ OperationMode.RecodeBare = OperationMode.ImportBare by decide,
        show ¬ OperationMode.RecodeBare = OperationMode.ExportBare by decide,
        if_true, if_false, Executed.after, protectingPasswords, List.singleton_append,
        List.filterMap_cons] at hp
      exact recodeBare_passwords c s _ script w p hp
  intro p hp
  refine ⟨key p hp, fun hl => ?_⟩
  rcases key p hp with ⟨_, h⟩ | ⟨h, _⟩
  · exact ⟨h, by rw [h]; exact hl⟩
  · exact absurd h hl

/-- Example: with the lock password p@ssw0rd configured, `NewBare` names exactly
that password in its `importSecret` call. -/
theorem protecting_password_origin_witness :
    protectingPasswords (({ testSession OperationMode.NewBare with
        m_lock := "p@ssw0rd" }).execute testCollaborators 1 [] testWorld).trace = ["p@ssw0rd"]
    ∧ ∀ p ∈ protectingPasswords (({ testSession OperationMode.NewBare with
          m_lock := "p@ssw0rd" }).execute testCollaborators 1 [] testWorld).trace,
        LockOrigin { testSession OperationMode.NewBare with m_lock := "p@ssw0rd" } [] p
          ∧ (({ testSession OperationMode.NewBare with m_lock := "p@ssw0rd" }).m_lock ≠ "" →
              p = ({ testSession OperationMode.NewBare with m_lock := "p@ssw0rd" }).m_lock
                ∧ p ≠ "") :=
  ⟨by decide, protecting_password_origin testCollaborators 1
    { testSession OperationMode.NewBare with m_lock := "p@ssw0rd" } [] testWorld
    (Or.inl (by decide))⟩

/-! ## Theorems: flags with arguments -/

/-- C17: on `-i` or `--import` with at least two further tokens, `interpretOption`
returns true, sets the mode to `Import`, replaces the inputs by the one-element
sequence holding the first following token, sets the name to the second
following token, advances the index by exactly two and changes nothing else. -/
theorem import_captures_source_and_name (s : KeyCLI) (i argc : Nat) (argv : List String)
    (arg a b : String) (harg : argv[i]? = some arg) (hflag : arg = "-i" ∨ arg = "--import")
    (h1 : argv[i + 1]? = some a) (h2 : argv[i + 2]? = some b) (hargc : i + 2 < argc) :
    s.interpretOption i argc argv
      = some ⟨true, i + 2,
          { s with m_mode := OperationMode.Import, m_inputs := [a], m_name := b }⟩ := by
  rcases hflag with e | e <;> subst e <;>
    simp [KeyCLI.interpretOption, harg, h1, h2, hargc]

/-- Witness for C17: `--import key.json alice` after inputs were collected. -/
theorem import_captures_source_and_name_witness :
    ({ testSession OperationMode.ImportBare with m_inputs := ["old"] }).interpretOption 1 4
        ["ethkey", "--import", "key.json", "alice"]
      = some ⟨true, 3, { testSession OperationMode.ImportBare with
          m_mode := OperationMode.Import, m_inputs := ["key.json"], m_name := "alice" }⟩ :=
  import_captures_source_and_name _ 1 4 ["ethkey", "--import", "key.json", "alice"]
    "--import" "key.json" "alice" (by decide) (Or.inr rfl) (by decide) (by decide) (by decide)

/-- After `m[n] = v` the map holds `v` under `n`, and what it holds under any
other name is unchanged. -/
theorem mapFind_mapAssign (m : List (String × String)) (n v : String) :
    mapFind (mapAssign m n v) n = some v
      ∧ ∀ k, k ≠ n → mapFind (mapAssign m n v) k = mapFind m k := by
  induction m with
  | nil =>
    refine ⟨by simp [mapAssign, mapFind], fun k hk => by simp [mapAssign, mapFind, hk]⟩
  | cons p rest ih =>
    obtain ⟨k0, w0⟩ := p
    by_cases h1 : n = k0
    · subst h1
      refine ⟨by simp [mapAssign, mapFind], fun k hk => by simp [mapAssign, mapFind, hk]⟩
    · by_cases h2 : n < k0
      · refine ⟨by simp [mapAssign, mapFind, h1, h2], fun k hk => ?_⟩
        simp [mapAssign, mapFind, h1, h2, hk]
      · refine ⟨by simp [mapAssign, mapFind, h1, h2, ih.1], fun k hk => ?_⟩
        simp [mapAssign, mapFind, h1, h2, ih.2 k hk]

/-- C18: path and credential flags change only their own field. With the token
at index `i` read as `arg`: a one-argument flag with a following token sets its
field to that token (`--unlock` appends it to the unlock sequence) and advances
the index by one; `--kdf-param` with two following tokens maps the first to the
second, overwriting an earlier value of that name and keeping the others, and
advances the index by two; `--no-icap` clears the ICAP flag and leaves the
index. Each returns true and leaves the mode and every other field, the inputs
included, as they were. -/
theorem credential_flags_frame (s : KeyCLI) (i argc : Nat) (argv : List String) (arg : String)
    (harg : argv[i]? = some arg) :
    (∀ a, argv[i + 1]? = some a → i + 1 < argc →
        (arg = "--wallet-path" →
          s.interpretOption i argc argv = some ⟨true, i + 1, { s with m_walletPath := a }⟩)
        ∧ (arg = "--secrets-path" →
          s.interpretOption i argc argv = some ⟨true, i + 1, { s with m_secretsPath := a }⟩)
        ∧ (arg = "-m" ∨ arg = "--master" →
          s.interpretOption i argc argv = some ⟨true, i + 1, { s with m_masterPassword := a }⟩)
        ∧ (arg = "--unlock" →
          s.interpretOption i argc argv
            = some ⟨true, i + 1, { s with m_unlocks := s.m_unlocks ++ [a] }⟩)
        ∧ (arg = "--lock" →
          s.interpretOption i argc argv = some ⟨true, i + 1, { s with m_lock := a }⟩)
        ∧ (arg = "--kdf" →
          s.interpretOption i argc argv = some ⟨true, i + 1, { s with m_kdf := a }⟩))
    ∧ (∀ n v, argv[i + 1]? = some n → argv[i + 2]? = some v → i + 2 < argc →
        arg = "--kdf-param" →
          s.interpretOption i argc argv
              = some ⟨true, i + 2, { s with m_kdfParams := mapAssign s.m_kdfParams n v }⟩
            ∧ mapFind (mapAssign s.m_kdfParams n v) n = some v
            ∧ ∀ k, k ≠ n → mapFind (mapAssign s.m_kdfParams n v) k = mapFind s.m_kdfParams k)
    ∧ (arg = "--no-icap" →
        s.interpretOption i argc argv = some ⟨true, i, { s with m_icap := false }⟩) := by
  refine ⟨fun a h1 hargc => ⟨?_, ?_, ?_, ?_, ?_, ?_⟩, fun n v h1 h2 hargc e => ⟨?_, ?_⟩, ?_⟩
  · intro e; subst e; simp [KeyCLI.interpretOption, harg, h1, hargc]
  · intro e; subst e; simp [KeyCLI.interpretOption, harg, h1, hargc]
  · intro e; rcases e with e | e <;> subst e <;> simp [KeyCLI.interpretOption, harg, h1, hargc]
  · intro e; subst e; simp [KeyCLI.interpretOption, harg, h1, hargc]
  · intro e; subst e; simp [KeyCLI.interpretOption, harg, h1, hargc]
  · intro e; subst e; simp [KeyCLI.interpretOption, harg, h1, hargc]
  · subst e; simp [KeyCLI.interpretOption, harg, h1, h2, hargc]
  · exact mapFind_mapAssign s.m_kdfParams n v
  · intro e; subst e; simp [KeyCLI.interpretOption, harg]

/-- Witness for C18: `--kdf-param n 2` over an earlier value of `n`, in mode
`ImportBare` with an input collected. -/
theorem credential_flags_frame_witness :
    ({ testSession OperationMode.ImportBare with
        m_inputs := ["a"], m_kdfParams := [("n", "1")] }).interpretOption 1 4
        ["ethkey", "--kdf-param", "n", "2"]
      = some ⟨true, 3, { testSession OperationMode.ImportBare with
          m_inputs := ["a"], m_kdfParams := [("n", "2")] }⟩ :=
  ((credential_flags_frame
      { testSession OperationMode.ImportBare with m_inputs := ["a"], m_kdfParams := [("n", "1")] }
      1 4 ["ethkey", "--kdf-param", "n", "2"] "--kdf-param" (by decide)).2.1
    "n" "2" (by decide) (by decide) (by decide) rfl).1

/-! ## Theorems: collected inputs -/

/-- Only `-i`/`--import` with its arguments assigns the mode `Import`. -/
theorem importInterpretedAt_of_modeSetBy (argc : Nat) (argv : List String) (p : Nat)
    (h : modeSetBy argc argv p = some OperationMode.Import) : ImportInterpretedAt argc argv p := by
  unfold modeSetBy at h
  cases harg : argv[p]? with
  | none => rw [harg] at h; simp at h
  | some arg =>
    rw [harg] at h
    dsimp only at h
    revert h
    repeat' refine holds_of_ite (fun o => o = some OperationMode.Import → ImportInterpretedAt argc argv p) _ _ _ (fun h => ?_) (fun h => ?_)
    all_goals first
      | (intro hm; exact absurd hm (by decide))
      | (intro _; exact ⟨arg, harg, h.1, h.2⟩)

/-- Scanning a vector in which no option name is an interpreted `-i`/`--import`
only appends to the inputs. -/
theorem interpretAll_inputs (argv : List String) :
    ∀ (fuel : Nat) (s : KeyCLI) (i : Nat), argv.length ≤ i + fuel →
      ∃ t, interpretAll fuel s i argv.length argv = some t
        ∧ ((∀ p ∈ t.names, ¬ ImportInterpretedAt argv.length argv p) →
            ∃ added, t.cli.m_inputs = s.m_inputs ++ added) := by
  intro fuel
  induction fuel with
  | zero =>
    intro s i h
    have hn : ¬ i < argv.length := by omega
    exact ⟨⟨s, []⟩, by simp [interpretAll, hn], fun _ => ⟨[], by simp⟩⟩
  | succ fuel ih =>
    intro s i h
    by_cases hi : i < argv.length
    · obtain ⟨r, hr, hle, -, -, hin⟩ := interpretOption_cases s i argv hi
      obtain ⟨t, ht, hta⟩ := ih r.cli (r.i + 1) (by omega)
      refine ⟨⟨t.cli, i :: t.names⟩, by simp [interpretAll, hi, hr, ht], fun hno => ?_⟩
      obtain ⟨added, hadd⟩ := hta (fun p hp => hno p (List.mem_cons_of_mem _ hp))
      show ∃ added, t.cli.m_inputs = s.m_inputs ++ added
      rcases hin with h0 | h0 | ⟨h0, -⟩
      · exact ⟨added, by rw [hadd, h0]⟩
      · exact ⟨argv[i]?.toList ++ added, by rw [hadd, h0, List.append_assoc]⟩
      · exact absurd (importInterpretedAt_of_modeSetBy _ _ _ h0) (hno i (List.mem_cons_self _ _))
    · exact ⟨⟨s, []⟩, by simp [interpretAll, hi], fun _ => ⟨[], by simp⟩⟩

/-- C20: collected inputs survive mode changes. A mode-setting token other than
`-i`/`--import` changes the mode only, so the inputs stay as they were; and a
scan of any argument vector in which no `-i`/`--import` is interpreted ends
with the initial inputs followed by what was appended. -/
theorem inputs_survive_mode_changes (s : KeyCLI) (i : Nat) (argv : List String) :
    (∀ argc arg, argv[i]? = some arg → arg ∈ modeFlagsNoArgument →
        s.interpretOption i argc argv
          = some ⟨true, i, { s with m_mode := (modeSetBy argc argv i).getD s.m_mode }⟩)
    ∧ ∃ t, interpretAll argv.length s i argv.length argv = some t
        ∧ ((∀ p ∈ t.names, ¬ ImportInterpretedAt argv.length argv p) →
            ∃ added, t.cli.m_inputs = s.m_inputs ++ added) := by
  refine ⟨fun argc arg harg hmem => ?_, interpretAll_inputs argv argv.length s i (by omega)⟩
  simp only [modeFlagsNoArgument, List.mem_cons, List.mem_singleton, List.not_mem_nil,
    or_false] at hmem
  rcases hmem with e | e | e | e | e | e | e | e | e | e | e <;> subst e <;>
    simp [KeyCLI.interpretOption, modeSetBy, harg]

/-- Witness for C20: `--import-bare a --recode-bare b` ends in mode `RecodeBare`
with the inputs a, b, and `execute` then hands both, in that order, to the
re-encoding of the store. -/
theorem inputs_survive_mode_changes_witness :
    interpretAll 5 (testSession OperationMode.None) 1 5
        ["ethkey", "--import-bare", "a", "--recode-bare", "b"]
      = some ⟨{ testSession OperationMode.None with
          m_mode := OperationMode.RecodeBare, m_inputs := ["a", "b"] }, [1, 2, 3, 4]⟩
    ∧ (({ testSession OperationMode.None with
          m_mode := OperationMode.RecodeBare, m_inputs := ["a", "b"],
          m_lock := "pw" }).execute testCollaborators 0
          ["old", "old"] testWorld).trace
      = [Event.secretStore "secrets",
          Event.recode 1 "pw" KDF.Scrypt, Event.getPassword "Enter password for key key: ",
          Event.cerr "Couldn't re-encode key; key corrupt or incorrect password supplied.\n",
          Event.recode 1 "pw" KDF.Scrypt, Event.getPassword "Enter password for key key: ",
          Event.cerr "Couldn't re-encode key; key corrupt or incorrect password supplied.\n"]
    ∧ ({ testSession OperationMode.ImportBare with m_inputs := ["a"] }).interpretOption 3 5
          ["ethkey", "--import-bare", "a", "--recode-bare", "b"]
        = some ⟨true, 3, { testSession OperationMode.ImportBare with
            m_inputs := ["a"], m_mode := OperationMode.RecodeBare }⟩ :=
  ⟨by decide, by decide,
    (inputs_survive_mode_changes { testSession OperationMode.ImportBare with m_inputs := ["a"] }
      3 ["ethkey", "--import-bare", "a", "--recode-bare", "b"]).1 5 "--recode-bare"
      (by decide) (by decide)⟩

/-! ## Theorems: the bare import and re-encoding loops -/

/-- In `ImportBare` mode `execute` opens the store and runs the import loop over
the inputs. -/
theorem execute_importBare {W : Type} (c : Collaborators W) (fuel : Nat) (s : KeyCLI)
    (script : List String) (w : W) (h : s.m_mode = OperationMode.ImportBare) :
    s.execute c fuel script w
      = (s.importBare c s.m_inputs script w).after [Event.secretStore s.m_secretsPath] := by
  have h1 : ¬ s.m_mode = OperationMode.CreateWallet := by rw [h]; decide
  have h2 : s.m_mode.ord < OperationMode.FirstWallet.ord := by rw [h]; decide
  have h3 : ¬ s.m_mode = OperationMode.ListBare := by rw [h]; decide
  have h4 : ¬ s.m_mode = OperationMode.NewBare := by rw [h]; decide
  unfold KeyCLI.execute
  rw [if_neg h1, if_pos h2, if_neg h3, if_neg h4, if_pos h]

/-- C11 (defect): in `ImportBare` mode, a token that is no 32-byte hex secret and
names no file holding one is reported as "Cannot import" whatever the store's
`importKey` returns for it: the identifier of a successful `importKey` is
dropped, the store keeps what `importKey` did, and the loop goes on. -/
theorem importKey_success_reported_as_failure {W : Type} (c : Collaborators W) (fuel : Nat)
    (s : KeyCLI) (i : String) (inputs script : List String) (w : W)
    (hmode : s.m_mode = OperationMode.ImportBare) (hin : s.m_inputs = i :: inputs)
    (ha : (c.fromHex i).length ≠ 32) (hb : (c.fromHex (c.contentsString w i)).length ≠ 32) :
    s.execute c fuel script w
      = (s.importBare c inputs script (c.importKey w s.m_secretsPath i).2).after
          [Event.secretStore s.m_secretsPath, Event.contentsString i, Event.importKey i,
            Event.cerr ("Cannot import " ++ i ++ " not a file or secret.\n")] := by
  rw [execute_importBare c fuel s script w hmode, hin, KeyCLI.importBare]
  have hp : s.importProbe c w i
      = ⟨c.fromHex (c.contentsString w i), (c.importKey w s.m_secretsPath i).1,
          (c.importKey w s.m_secretsPath i).2, [.contentsString i, .importKey i]⟩ := by
    unfold KeyCLI.importProbe
    rw [if_pos ha, if_pos hb]
  rw [hp]
  dsimp only
  rw [if_neg (fun h => hb h.2)]
  simp [Executed.after]

/-- Witness for C11: the store accepts key.json under identifier 7, and the run
reports that it cannot import key.json. -/
theorem importKey_success_reported_as_failure_witness :
    (keyFileCollaborators.importKey testWorld "secrets" "key.json").1 = 7
    ∧ (({ testSession OperationMode.ImportBare with m_inputs := ["key.json"] }).execute
        keyFileCollaborators 0 [] testWorld).trace
      = [Event.secretStore "secrets", Event.contentsString "key.json", Event.importKey "key.json",
          Event.cerr "Cannot import key.json not a file or secret.\n"]
    ∧ ({ testSession OperationMode.ImportBare with m_inputs := ["key.json"] }).execute
        keyFileCollaborators 0 [] testWorld
      = (({ testSession OperationMode.ImportBare with m_inputs := ["key.json"] }).importBare
            keyFileCollaborators [] []
            (keyFileCollaborators.importKey testWorld "secrets" "key.json").2).after
          [Event.secretStore "secrets", Event.contentsString "key.json",
            Event.importKey "key.json",
            Event.cerr ("Cannot import " ++ "key.json" ++ " not a file or secret.\n")] :=
  ⟨by decide, by decide,
    importKey_success_reported_as_failure keyFileCollaborators 0
      { testSession OperationMode.ImportBare with m_inputs := ["key.json"] } "key.json" [] []
      testWorld (by decide) (by decide) (by decide) (by decide)⟩

/-- There is always a first load attempt. -/
theorem loadAttempts_ne_nil {W : Type} (c : Collaborators W) (wp sp : String)
    (script : List String) (p : String) (w : W) : loadAttempts c wp sp script p w ≠ [] := by
  by_cases h : (c.walletLoad w wp sp p).1 = true
  · cases script <;> rw [loadAttempts, if_pos h] <;> exact List.cons_ne_nil _ _
  · cases script <;> rw [loadAttempts, if_neg h] <;> exact List.cons_ne_nil _ _

/-- The unlock loop makes the load attempts of the specification. -/
theorem unlock_facts {W : Type} (c : Collaborators W) :
    ∀ (script : List String) (s : KeyCLI) (w : W),
      UnlockFacts (loadAttempts c s.m_walletPath s.m_secretsPath script s.m_masterPassword w)
        s.m_masterPassword script (s.unlock c script w) := by
  intro script
  induction script with
  | nil =>
    intro s w
    rw [KeyCLI.unlock, loadAttempts]
    by_cases hl : (c.walletLoad w s.m_walletPath s.m_secretsPath s.m_masterPassword).1 = true
    · rw [if_pos hl, if_pos hl]
      refine ⟨rfl, ⟨[], rfl, fun _ => rfl⟩, by simp, rfl, by simp [invalidLine], Or.inl ⟨rfl, rfl⟩⟩
    · rw [if_neg hl, if_neg hl]
      dsimp only
      refine ⟨?_, ⟨[], rfl, fun h => by cases h⟩, by simp, ?_, ?_, Or.inr ⟨rfl, rfl, rfl, by simp⟩⟩
      · by_cases hp : s.m_masterPassword = "" <;> simp [walletLoads, hp]
      · by_cases hp : s.m_masterPassword = "" <;> simp [promptsShown, hp]
      · by_cases hp : s.m_masterPassword = "" <;>
          simp [hp, invalidLine, List.count_cons, masterPrompt]
  | cons q rest ih =>
    intro s w
    rw [KeyCLI.unlock, loadAttempts]
    by_cases hl : (c.walletLoad w s.m_walletPath s.m_secretsPath s.m_masterPassword).1 = true
    · rw [if_pos hl, if_pos hl]
      refine ⟨rfl, ⟨q :: rest, rfl, fun _ => rfl⟩, by simp, rfl, by simp [invalidLine],
        Or.inl ⟨rfl, rfl⟩⟩
    · rw [if_neg hl, if_neg hl]
      dsimp only
      obtain ⟨h1, ⟨unread, h2, h2'⟩, h3, h4, h5, h6⟩ :=
        ih { s with m_masterPassword := q }
          (c.walletLoad w s.m_walletPath s.m_secretsPath s.m_masterPassword).2
      dsimp only at h1 h2 h2' h3 h4 h5 h6
      have hne := loadAttempts_ne_nil c s.m_walletPath s.m_secretsPath rest q
        (c.walletLoad w s.m_walletPath s.m_secretsPath s.m_masterPassword).2
      have hmidL : walletLoads (if s.m_masterPassword ≠ "" then
          [Event.cout "Password invalid. Try again.\n"] else []) = [] := by
        split <;> rfl
      have hmidP : promptsShown (if s.m_masterPassword ≠ "" then
          [Event.cout "Password invalid. Try again.\n"] else []) = [] := by
        split <;> rfl
      have hmidC : (if s.m_masterPassword ≠ "" then
          [Event.cout "Password invalid. Try again.\n"] else []).count (Event.cout invalidLine)
            = if s.m_masterPassword ≠ "" then 1 else 0 := by
        split <;> simp [invalidLine]
      refine ⟨?_, ⟨unread, ?_, h2'⟩, ?_, ?_, ?_, ?_⟩
      · simp only [walletLoads] at h1 hmidL
        simp only [Executed.after, walletLoads, List.filterMap_append, hmidL, h1,
          List.filterMap_cons, List.filterMap_nil, List.map_cons, List.append_nil,
          List.nil_append, List.singleton_append]
      · simp [h2]
      · intro a ha
        rw [List.dropLast_cons_of_ne_nil hne] at ha
        rcases List.mem_cons.1 ha with ha | ha
        · rw [ha]
        · exact h3 a ha
      · simp only [promptsShown] at h4 hmidP
        simp only [Executed.after, promptsShown, List.filterMap_append, hmidP, h4,
          List.filterMap_cons, List.filterMap_nil, List.append_nil,
          List.nil_append, List.singleton_append, List.filter_cons, Bool.not_false, if_true,
          List.map_cons]
      · simp only [Executed.after, List.count_append, hmidC, h5, List.filter_cons,
          Bool.not_false, Bool.true_and]
        by_cases hp : s.m_masterPassword = ""
        · simp [hp, invalidLine, masterPrompt]
        · simp [hp, invalidLine, masterPrompt]
          omega
      · obtain ⟨b, l, hbl⟩ := List.exists_cons_of_ne_nil hne
        rcases h6 with ⟨h6a, h6b⟩ | ⟨h6a, h6b, h6c, h6d⟩
        · refine Or.inl ⟨h6a, ?_⟩
          rw [hbl, List.getLast?_cons_cons, ← hbl]
          exact h6b
        · refine Or.inr ⟨h6a, h6b, by simp [h6c], fun a ha => ?_⟩
          rcases List.mem_cons.1 ha with ha | ha
          · rw [ha]
          · exact h6d a ha

/-- The wallet unlock loop in the modes that reach it. In the wallet modes `List`,
`Import`, `Export`, `Recode` and `Kill`, when the wallet exists, `execute` checks that and runs the
unlock loop: `wallet.load` is called with the pre-supplied master password and
then with the terminal responses, in order, each once, up to the first one the
wallet accepts; the master prompt is shown once after each failed attempt, and
the invalid-password line after each failed attempt with a non-empty password;
the run returns holding the accepted password and leaves the later responses
unread, or, when every attempt failed, waits for input holding the cleared
(empty) password. -/
theorem unlock_loop_attempts {W : Type} (c : Collaborators W) (fuel : Nat) (s : KeyCLI)
    (script : List String) (w : W)
    (hmode : s.m_mode = OperationMode.List ∨ s.m_mode = OperationMode.Import
      ∨ s.m_mode = OperationMode.Export ∨ s.m_mode = OperationMode.Recode
      ∨ s.m_mode = OperationMode.Kill)
    (hexists : c.walletExists w s.m_walletPath s.m_secretsPath = true) :
    s.execute c fuel script w
        = (s.unlock c script w).after
            [Event.keyManager s.m_walletPath s.m_secretsPath, Event.walletExists]
    ∧ UnlockFacts (loadAttempts c s.m_walletPath s.m_secretsPath script s.m_masterPassword w)
        s.m_masterPassword script (s.execute c fuel script w) := by
  have h1 : ¬ s.m_mode = OperationMode.CreateWallet := by
    rcases hmode with h | h | h | h | h <;> rw [h] <;> decide
  have h2 : ¬ s.m_mode.ord < OperationMode.FirstWallet.ord := by
    rcases hmode with h | h | h | h | h <;> rw [h] <;> decide
  have he : s.execute c fuel script w
      = (s.unlock c script w).after
          [Event.keyManager s.m_walletPath s.m_secretsPath, Event.walletExists] := by
    unfold KeyCLI.execute
    rw [if_neg h1, if_neg h2, if_pos hexists]
  refine ⟨he, ?_⟩
  rw [he]
  obtain ⟨f1, f2, f3, f4, f5, f6⟩ := unlock_facts c script s w
  refine ⟨?_, f2, f3, ?_, ?_, f6⟩
  · simpa [Executed.after, walletLoads] using f1
  · simpa [Executed.after, promptsShown] using f4
  · simpa [Executed.after, invalidLine] using f5

/-- Example: in `List` mode, with the master password sequence wrong, wrong,
correct the wallet is unlocked by the third `load` call, each failure being followed by the
invalid-password line and one prompt. -/
theorem unlock_loop_attempts_witness :
    (({ testSession OperationMode.List with m_masterPassword := "wrong" }).execute
        testCollaborators 0 ["wrong", "correct", "later"] lockedWorld).trace
      = [Event.keyManager "wallet" "secrets", Event.walletExists,
          Event.walletLoad "wrong", Event.cout invalidLine, Event.getPassword masterPrompt,
          Event.walletLoad "wrong", Event.cout invalidLine, Event.getPassword masterPrompt,
          Event.walletLoad "correct"]
    ∧ loadAttempts testCollaborators "wallet" "secrets" ["wrong", "correct", "later"] "wrong"
        lockedWorld = [("wrong", false), ("wrong", false), ("correct", true)]
    ∧ UnlockFacts
        (loadAttempts testCollaborators
          ({ testSession OperationMode.List with m_masterPassword := "wrong" }).m_walletPath
          ({ testSession OperationMode.List with m_masterPassword := "wrong" }).m_secretsPath
          ["wrong", "correct", "later"]
          ({ testSession OperationMode.List with m_masterPassword := "wrong" }).m_masterPassword
          lockedWorld)
        ({ testSession OperationMode.List with m_masterPassword := "wrong" }).m_masterPassword
        ["wrong", "correct", "later"]
        (({ testSession OperationMode.List with m_masterPassword := "wrong" }).execute
          testCollaborators 0 ["wrong", "correct", "later"] lockedWorld) :=
  ⟨by decide, by decide,
    (unlock_loop_attempts testCollaborators 0
      { testSession OperationMode.List with m_masterPassword := "wrong" }
      ["wrong", "correct", "later"] lockedWorld (Or.inl (by decide)) (by decide)).2⟩

/-! ## Theorems: key generation -/

/-- With the ICAP flag set, a key the loop returns is the key of the initial secret
hashed `n` times, for the least `n` at which the address starts with a zero
byte. -/
theorem makeKeyLoop_icap {W : Type} (c : Collaborators W) (s : KeyCLI) (hicap : s.m_icap = true) :
    ∀ (fuel : Nat) (r : Bytes) (k : KeyPair),
      s.makeKeyLoop c fuel (KeyPair.ofSecret c r) = some k →
        ∃ n, n ≤ fuel ∧ k = KeyPair.ofSecret c (hashTimes c n r)
          ∧ firstAddressByte c (hashTimes c n r) = 0
          ∧ ∀ m, m < n → firstAddressByte c (hashTimes c m r) ≠ 0 := by
  intro fuel
  induction fuel with
  | zero =>
    intro r k h
    rw [KeyCLI.makeKeyLoop] at h
    by_cases hb : firstAddressByte c r = 0
    · have hc : ¬ (s.m_icap = true ∧ (KeyPair.ofSecret c r).address.getD 0 0 ≠ 0) :=
        fun hc => hc.2 hb
      rw [if_neg hc] at h
      cases h
      exact ⟨0, le_refl _, rfl, hb, fun m hm => absurd hm (Nat.not_lt_zero m)⟩
    · rw [if_pos ⟨hicap, hb⟩] at h
      cases h
  | succ fuel ih =>
    intro r k h
    rw [KeyCLI.makeKeyLoop] at h
    by_cases hb : firstAddressByte c r = 0
    · have hc : ¬ (s.m_icap = true ∧ (KeyPair.ofSecret c r).address.getD 0 0 ≠ 0) :=
        fun hc => hc.2 hb
      rw [if_neg hc] at h
      cases h
      exact ⟨0, Nat.zero_le _, rfl, hb, fun m hm => absurd hm (Nat.not_lt_zero m)⟩
    · rw [if_pos ⟨hicap, hb⟩] at h
      obtain ⟨n, hn, hk, hz, hmin⟩ := ih (c.sha3 r) k h
      refine ⟨n + 1, Nat.succ_le_succ hn, hk, hz, fun m hm => ?_⟩
      cases m with
      | zero => exact hb
      | succ m => exact hmin m (Nat.lt_of_succ_lt_succ hm)

/-- With the ICAP flag set, the loop returns once the fuel reaches a number of
hashings at which the address starts with a zero byte. -/
theorem makeKeyLoop_returns {W : Type} (c : Collaborators W) (s : KeyCLI) :
    ∀ (fuel n : Nat) (r : Bytes), n ≤ fuel → firstAddressByte c (hashTimes c n r) = 0 →
      ∃ k, s.makeKeyLoop c fuel (KeyPair.ofSecret c r) = some k := by
  intro fuel
  induction fuel with
  | zero =>
    intro n r hn hz
    have h0 : n = 0 := Nat.le_zero.1 hn
    subst h0
    rw [KeyCLI.makeKeyLoop]
    exact ⟨_, if_neg (fun hc => hc.2 hz)⟩
  | succ fuel ih =>
    intro n r hn hz
    rw [KeyCLI.makeKeyLoop]
    by_cases hc : s.m_icap = true ∧ (KeyPair.ofSecret c r).address.getD 0 0 ≠ 0
    · rw [if_pos hc]
      cases n with
      | zero => exact absurd hz hc.2
      | succ n => exact ih n (c.sha3 r) (Nat.le_of_succ_le_succ hn) hz
    · rw [if_neg hc]
      exact ⟨_, rfl⟩

/-- Without the ICAP flag the loop returns the key it was given. -/
theorem makeKeyLoop_no_icap {W : Type} (c : Collaborators W) (s : KeyCLI)
    (hicap : s.m_icap = false) (fuel : Nat) (k : KeyPair) :
    s.makeKeyLoop c fuel k = some k := by
  cases fuel <;> rw [KeyCLI.makeKeyLoop] <;> simp [hicap]

/-- C15: ICAP key generation. Whenever `makeKey` returns a key with the ICAP flag
enabled, the first byte of the key's address is zero and the key's secret is
the initial random secret hashed `n` times, for the least `n` at which the
address starts with a zero byte; and it does return once the fuel reaches such
an `n`. With the flag disabled `makeKey` returns, for any fuel, the key pair
of the initial random secret itself. -/
theorem makeKey_icap {W : Type} (c : Collaborators W) (s : KeyCLI) (fuel : Nat) (w : W) :
    (s.m_icap = true → ∀ k w1, s.makeKey c fuel w = (some k, w1) →
        k.address.getD 0 0 = 0
          ∧ ∃ n, n ≤ fuel ∧ k = KeyPair.ofSecret c (hashTimes c n (c.secretRandom w).1)
            ∧ firstAddressByte c (hashTimes c n (c.secretRandom w).1) = 0
            ∧ ∀ m, m < n → firstAddressByte c (hashTimes c m (c.secretRandom w).1) ≠ 0)
    ∧ (s.m_icap = true → ∀ n, n ≤ fuel →
        firstAddressByte c (hashTimes c n (c.secretRandom w).1) = 0 →
          ∃ k, s.makeKey c fuel w = (some k, (c.secretRandom w).2))
    ∧ (s.m_icap = false →
        s.makeKey c fuel w
          = (some (KeyPair.ofSecret c (c.secretRandom w).1), (c.secretRandom w).2)) := by
  refine ⟨fun hicap k w1 h => ?_, fun _ n hn hz => ?_, fun hicap => ?_⟩
  · unfold KeyCLI.makeKey at h
    simp only [Prod.mk.injEq] at h
    obtain ⟨n, hn, hk, hz, hmin⟩ := makeKeyLoop_icap c s hicap fuel _ k h.1
    refine ⟨?_, n, hn, hk, hz, hmin⟩
    rw [hk]
    exact hz
  · obtain ⟨k, hk⟩ := makeKeyLoop_returns c s fuel n _ hn hz
    exact ⟨k, by unfold KeyCLI.makeKey; simp only [hk]⟩
  · unfold KeyCLI.makeKey
    simp only [makeKeyLoop_no_icap c s hicap]

/-- Witness for C15: in the test world the random secret is 1, whose address
starts with 1; one hashing gives the secret 2, whose address starts with zero. -/
theorem makeKey_icap_witness :
    (testSession OperationMode.NewBare).makeKey testCollaborators 1 testWorld
      = (some ⟨[2], [0]⟩, testWorld)
    ∧ ∀ k w1, (testSession OperationMode.NewBare).makeKey testCollaborators 1 testWorld
        = (some k, w1) →
        k.address.getD 0 0 = 0
          ∧ ∃ n, n ≤ 1
            ∧ k = KeyPair.ofSecret testCollaborators
                (hashTimes testCollaborators n (testCollaborators.secretRandom testWorld).1)
            ∧ firstAddressByte testCollaborators
                (hashTimes testCollaborators n (testCollaborators.secretRandom testWorld).1) = 0
            ∧ ∀ m, m < n → firstAddressByte testCollaborators
                (hashTimes testCollaborators m (testCollaborators.secretRandom testWorld).1) ≠ 0 :=
  ⟨by decide, (makeKey_icap testCollaborators (testSession OperationMode.NewBare) 1 testWorld).1
    (by decide)⟩

/-- C16 (defect): in the wallet modes `List`, `Import`, `Export`, `Recode` and
`Kill`, with an existing wallet that accepts the pre-supplied master password,
`execute` ends right after the successful `wallet.load`: it makes no further
wallet call (it never asks for the account details) and writes nothing, so
`List` outputs no account. -/
theorem unlocked_wallet_runs_no_operation {W : Type} (c : Collaborators W) (fuel : Nat)
    (s : KeyCLI) (script : List String) (w : W)
    (hmode : s.m_mode = OperationMode.List ∨ s.m_mode = OperationMode.Import
      ∨ s.m_mode = OperationMode.Export ∨ s.m_mode = OperationMode.Recode
      ∨ s.m_mode = OperationMode.Kill)
    (hexists : c.walletExists w s.m_walletPath s.m_secretsPath = true)
    (hload : (c.walletLoad w s.m_walletPath s.m_secretsPath s.m_masterPassword).1 = true) :
    s.execute c fuel script w
      = ⟨Status.returned,
          [Event.keyManager s.m_walletPath s.m_secretsPath, Event.walletExists,
            Event.walletLoad s.m_masterPassword],
          s, script, (c.walletLoad w s.m_walletPath s.m_secretsPath s.m_masterPassword).2⟩ := by
  have h1 : ¬ s.m_mode = OperationMode.CreateWallet := by
    rcases hmode with h | h | h | h | h <;> rw [h] <;> decide
  have h2 : ¬ s.m_mode.ord < OperationMode.FirstWallet.ord := by
    rcases hmode with h | h | h | h | h <;> rw [h] <;> decide
  unfold KeyCLI.execute
  rw [if_neg h1, if_neg h2, if_pos hexists]
  cases script <;> rw [KeyCLI.unlock] <;> simp [hload, Executed.after]

/-- Witness for C16: `List` on the existing wallet with the right master password
ends after the `load` call, with no output. -/
theorem unlocked_wallet_runs_no_operation_witness :
    ({ testSession OperationMode.List with m_masterPassword := "correct" }).execute
        testCollaborators 0 [] lockedWorld
      = ⟨Status.returned,
          [Event.keyManager "wallet" "secrets", Event.walletExists, Event.walletLoad "correct"],
          { testSession OperationMode.List with m_masterPassword := "correct" }, [],
          lockedWorld⟩ :=
  unlocked_wallet_runs_no_operation testCollaborators 0
    { testSession OperationMode.List with m_masterPassword := "correct" } [] lockedWorld
    (Or.inl (by decide)) (by decide) (by decide)

/-! ## Theorems: what execution depends on -/

/-- The import loop does not read the unlock passwords, the name or the KDF
parameters. -/
theorem importBare_withExtras {W : Type} (c : Collaborators W) (s : KeyCLI)
    (u : List String) (n : String) (k : List (String × String)) :
    ∀ (inputs script : List String) (w : W),
      (s.withExtras u n k).importBare c inputs script w
        = (s.importBare c inputs script w).mapCli (fun x => x.withExtras u n k) := by
  intro inputs
  induction inputs with
  | nil => intro script w; rfl
  | cons i inputs ih =>
    intro script w
    rw [KeyCLI.importBare, KeyCLI.importBare]
    have hp : (s.withExtras u n k).importProbe c w i = s.importProbe c w i := rfl
    have hl : ∀ name, (s.withExtras u n k).lockPassword name script
        = s.lockPassword name script := fun _ => rfl
    have hs : (s.withExtras u n k).m_secretsPath = s.m_secretsPath := rfl
    simp only [hp, hl, hs]
    split
    · split
      · rfl
      · rw [ih]; rfl
    · rw [ih]; rfl

/-- The re-encoding loop does not read the unlock passwords, the name or the KDF
parameters. -/
theorem recodeBare_withExtras {W : Type} (c : Collaborators W) (s : KeyCLI)
    (u : List String) (n : String) (k : List (String × String)) :
    ∀ (inputs script : List String) (w : W),
      (s.withExtras u n k).recodeBare c inputs script w
        = (s.recodeBare c inputs script w).mapCli (fun x => x.withExtras u n k) := by
  intro inputs
  induction inputs with
  | nil => intro script w; rfl
  | cons i inputs ih =>
    intro script w
    rw [KeyCLI.recodeBare, KeyCLI.recodeBare]
    have hl : ∀ name, (s.withExtras u n k).lockPassword name script
        = s.lockPassword name script := fun _ => rfl
    have he : ∀ id rest, (s.withExtras u n k).existingPassword c w id rest
        = s.existingPassword c w id rest := fun _ _ => rfl
    have hs : (s.withExtras u n k).m_secretsPath = s.m_secretsPath := rfl
    have hk : (s.withExtras u n k).kdf = s.kdf := rfl
    simp only [hl, he, hs, hk]
    split
    · split
      · rfl
      · split
        · rfl
        · rw [ih]; rfl
    · rw [ih]; rfl

/-- The unlock loop does not read the unlock passwords, the name or the KDF
parameters. -/
theorem unlock_withExtras {W : Type} (c : Collaborators W)
    (u : List String) (n : String) (k : List (String × String)) :
    ∀ (script : List String) (s : KeyCLI) (w : W),
      (s.withExtras u n k).unlock c script w
        = (s.unlock c script w).mapCli (fun x => x.withExtras u n k) := by
  intro script
  induction script with
  | nil =>
    intro s w
    obtain ⟨m, sp, wp, mp, ul, lk, ic, nm, inp, kd, kp⟩ := s
    rw [KeyCLI.unlock, KeyCLI.unlock]
    dsimp only [KeyCLI.withExtras]
    split <;> rfl
  | cons q rest ih =>
    intro s w
    obtain ⟨m, sp, wp, mp, ul, lk, ic, nm, inp, kd, kp⟩ := s
    rw [KeyCLI.unlock, KeyCLI.unlock]
    dsimp only [KeyCLI.withExtras]
    split
    · rfl
    · have h := ih ⟨m, sp, wp, q, ul, lk, ic, nm, inp, kd, kp⟩ (c.walletLoad w wp sp mp).2
      dsimp only [KeyCLI.withExtras] at h
      rw [h]
      rfl

/-- The key-generation loop reads only the ICAP flag of the session. -/
theorem makeKeyLoop_congr {W : Type} (c : Collaborators W) (s1 s2 : KeyCLI)
    (h : s1.m_icap = s2.m_icap) :
    ∀ (fuel : Nat) (k : KeyPair), s1.makeKeyLoop c fuel k = s2.makeKeyLoop c fuel k := by
  intro fuel
  induction fuel with
  | zero => intro k; rw [KeyCLI.makeKeyLoop, KeyCLI.makeKeyLoop, h]
  | succ fuel ih => intro k; rw [KeyCLI.makeKeyLoop, KeyCLI.makeKeyLoop, h, ih]

/-- Key generation reads only the ICAP flag of the session. -/
theorem makeKey_congr {W : Type} (c : Collaborators W) (s1 s2 : KeyCLI)
    (h : s1.m_icap = s2.m_icap) (fuel : Nat) (w : W) :
    s1.makeKey c fuel w = s2.makeKey c fuel w := by
  unfold KeyCLI.makeKey
  dsimp only
  rw [makeKeyLoop_congr c s1 s2 h]

/-- The whole of `execute` does not read the unlock passwords, the name or the KDF
parameters: changing them changes only the session that is left. -/
theorem execute_withExtras {W : Type} (c : Collaborators W) (fuel : Nat) (s : KeyCLI)
    (u : List String) (n : String) (k : List (String × String)) (script : List String) (w : W) :
    (s.withExtras u n k).execute c fuel script w
      = (s.execute c fuel script w).mapCli (fun x => x.withExtras u n k) := by
  have hi := importBare_withExtras c s u n k
  have hr := recodeBare_withExtras c s u n k
  have hu := unlock_withExtras c u n k script s w
  obtain ⟨m, sp, wp, mp, ul, lk, ic, nm, inp, kd, kp⟩ := s
  unfold KeyCLI.execute
  dsimp only [KeyCLI.withExtras] at hi hr hu ⊢
  split
  · split
    · rfl
    · split <;> rfl
  · split
    · split
      · rfl
      · split
        · split
          · rfl
          · rename_i t lock rest _
            rw [makeKey_congr c ⟨m, sp, wp, mp, u, lock, ic, n, inp, kd, k⟩
              ⟨m, sp, wp, mp, ul, lock, ic, nm, inp, kd, kp⟩ rfl]
            split <;> rfl
        · split
          · rw [hi]; rfl
          · split
            · rfl
            · split
              · rw [hr]; rfl
              · rfl
    · split
      · rw [hu]; rfl
      · rfl

/-- C19: execution does not depend on the unlock passwords, the KDF parameters or
the display name. Two sessions that agree on mode, paths, master password,
lock password, ICAP flag, inputs and KDF identifier make, with the same
collaborators, world and terminal responses, the same calls with the same
arguments and write the same output (the same trace), end the same way, leave
the same responses unread and leave the same world. -/
theorem execute_ignores_extras {W : Type} (c : Collaborators W) (fuel : Nat) (s1 s2 : KeyCLI)
    (script : List String) (w : W)
    (hmode : s1.m_mode = s2.m_mode) (hsecrets : s1.m_secretsPath = s2.m_secretsPath)
    (hwallet : s1.m_walletPath = s2.m_walletPath)
    (hmaster : s1.m_masterPassword = s2.m_masterPassword) (hlock : s1.m_lock = s2.m_lock)
    (hicap : s1.m_icap = s2.m_icap) (hinputs : s1.m_inputs = s2.m_inputs)
    (hkdf : s1.m_kdf = s2.m_kdf) :
    (s1.execute c fuel script w).trace = (s2.execute c fuel script w).trace
    ∧ (s1.execute c fuel script w).status = (s2.execute c fuel script w).status
    ∧ (s1.execute c fuel script w).script = (s2.execute c fuel script w).script
    ∧ (s1.execute c fuel script w).world = (s2.execute c fuel script w).world := by
  have h2 : s2 = s1.withExtras s2.m_unlocks s2.m_name s2.m_kdfParams := by
    cases s1; cases s2
    simp only at hmode hsecrets hwallet hmaster hlock hicap hinputs hkdf
    subst hmode hsecrets hwallet hmaster hlock hicap hinputs hkdf
    rfl
  rw [h2, execute_withExtras]
  exact ⟨rfl, rfl, rfl, rfl⟩

/-- Witness for C19: two `RecodeBare` sessions that differ in unlock passwords,
name and KDF parameters leave the same trace. -/
theorem execute_ignores_extras_witness :
    (({ testSession OperationMode.RecodeBare with
          m_inputs := ["k"], m_lock := "pw", m_unlocks := ["u"], m_name := "alice",
          m_kdfParams := [("n", "1")] }).execute testCollaborators 0 ["old"] testWorld).trace
      = (({ testSession OperationMode.RecodeBare with
          m_inputs := ["k"], m_lock := "pw" }).execute testCollaborators 0 ["old"] testWorld).trace :=
  (execute_ignores_extras testCollaborators 0
    { testSession OperationMode.RecodeBare with
      m_inputs := ["k"], m_lock := "pw", m_unlocks := ["u"], m_name := "alice",
      m_kdfParams := [("n", "1")] }
    { testSession OperationMode.RecodeBare with m_inputs := ["k"], m_lock := "pw" }
    ["old"] testWorld rfl rfl rfl rfl rfl rfl rfl rfl).1

/-! ## Theorems: the password the bare operations store under -/

/-- C10 (defect): in `NewBare` mode `execute` stores the new secret under whatever
password it obtained, with no emptiness check: once a key `k` is made, the
world it leaves is the one `store.importSecret` makes with `k`'s secret and
that password. In particular, with no lock password configured and the empty
string entered twice at the prompt, the secret is stored under the empty
password, where `CreateWallet` aborts on an empty confirmed password. -/
theorem newBare_stores_under_obtained_password {W : Type} (c : Collaborators W) (fuel : Nat)
    (s : KeyCLI) (script : List String) (w : W) (hmode : s.m_mode = OperationMode.NewBare) :
    (∀ t lock rest k w1,
        (if s.m_lock = "" then
            createPassword "Enter a password with which to secure this account: " script
          else ⟨[], .returned s.m_lock script⟩) = ⟨t, .returned lock rest⟩ →
        KeyCLI.makeKey c { s with m_lock := lock } fuel w = (some k, w1) →
          s.execute c fuel script w
            = ⟨Status.returned,
                [Event.secretStore s.m_secretsPath] ++ (t ++
                  [Event.secretRandom, Event.importSecret k.secret lock,
                    Event.cout ("Created key " ++ c.abridged k.address ++ "\n"),
                    Event.cout ("Address: " ++ c.hex k.address ++ "\n"),
                    Event.cout ("ICAP: " ++ c.icapEncoded k.address ++ "\n")]),
                { s with m_lock := lock }, rest,
                (c.importSecret w1 s.m_secretsPath k.secret lock).2⟩)
    ∧ (∀ rest k w1, s.m_lock = "" → script = "" :: "" :: rest →
        KeyCLI.makeKey c { s with m_lock := "" } fuel w = (some k, w1) →
          (s.execute c fuel script w).status = Status.returned
            ∧ Event.importSecret k.secret "" ∈ (s.execute c fuel script w).trace
            ∧ (s.execute c fuel script w).world
                = (c.importSecret w1 s.m_secretsPath k.secret "").2) := by
  have h1 : ¬ s.m_mode = OperationMode.CreateWallet := by rw [hmode]; decide
  have h2 : s.m_mode.ord < OperationMode.FirstWallet.ord := by rw [hmode]; decide
  have h3 : ¬ s.m_mode = OperationMode.ListBare := by rw [hmode]; decide
  have key : ∀ t lock rest k w1,
      (if s.m_lock = "" then
          createPassword "Enter a password with which to secure this account: " script
        else ⟨[], .returned s.m_lock script⟩) = ⟨t, .returned lock rest⟩ →
      KeyCLI.makeKey c { s with m_lock := lock } fuel w = (some k, w1) →
        s.execute c fuel script w
          = ⟨Status.returned,
              [Event.secretStore s.m_secretsPath] ++ (t ++
                [Event.secretRandom, Event.importSecret k.secret lock,
                  Event.cout ("Created key " ++ c.abridged k.address ++ "\n"),
                  Event.cout ("Address: " ++ c.hex k.address ++ "\n"),
                  Event.cout ("ICAP: " ++ c.icapEncoded k.address ++ "\n")]),
              { s with m_lock := lock }, rest,
              (c.importSecret w1 s.m_secretsPath k.secret lock).2⟩ := by
    intro t lock rest k w1 hasked hkey
    unfold KeyCLI.execute
    rw [if_neg h1, if_pos h2, if_neg h3, if_pos hmode]
    dsimp only
    rw [hasked]
    dsimp only
    rw [hkey]
    rfl
  refine ⟨key, fun rest k w1 hl hs hkey => ?_⟩
  have hasked : (if s.m_lock = "" then
        createPassword "Enter a password with which to secure this account: " script
      else ⟨[], .returned s.m_lock script⟩)
      = ⟨[Event.getPassword "Enter a password with which to secure this account: ",
          Event.getPassword confirmPrompt], .returned "" rest⟩ := by
    rw [if_pos hl, hs]
    simp [createPassword]
  rw [key _ "" rest k w1 hasked hkey]
  exact ⟨rfl, by simp, rfl⟩

/-- Witness for C10: in the test world, with the empty string entered twice, the
store ends up holding the new secret under the empty password in `NewBare`
mode, the imported secret under the empty password in `ImportBare` mode, and
the re-encoded key under the empty new password in `RecodeBare` mode; with
the lock password p@ssw0rd configured the new secret is held under that. -/
theorem newBare_stores_under_obtained_password_witness :
    ((testSession OperationMode.NewBare).execute testCollaborators 1 ["", ""] testWorld).world
      = ⟨false, "", [([2], "")]⟩
    ∧ (({ testSession OperationMode.NewBare with m_lock := "p@ssw0rd" }).execute
        testCollaborators 1 [] testWorld).world = ⟨false, "", [([2], "p@ssw0rd")]⟩
    ∧ (({ testSession OperationMode.ImportBare with
          m_inputs := ["0123456789abcdef0123456789abcdef0123456789abcdef0123456789abcdef"] }).execute
        testCollaborators 0 ["", ""] testWorld).world
      = ⟨false, "", [(List.replicate 32 0, "")]⟩
    ∧ (({ testSession OperationMode.RecodeBare with m_inputs := ["k"] }).execute
        recordingCollaborators 0 ["", "", "old"] testWorld).world = ⟨false, "", [([1], "")]⟩
    ∧ ((testSession OperationMode.NewBare).execute testCollaborators 1 ["", ""] testWorld).status
        = Status.returned
    ∧ Event.importSecret (⟨[2], [0]⟩ : KeyPair).secret ""
        ∈ ((testSession OperationMode.NewBare).execute testCollaborators 1 ["", ""] testWorld).trace
    ∧ ((testSession OperationMode.NewBare).execute testCollaborators 1 ["", ""] testWorld).world
        = (testCollaborators.importSecret testWorld (testSession OperationMode.NewBare).m_secretsPath
            (⟨[2], [0]⟩ : KeyPair).secret "").2 :=
  ⟨by decide, by decide, by decide, by decide,
    (newBare_stores_under_obtained_password testCollaborators 1
      (testSession OperationMode.NewBare) ["", ""] testWorld (by decide)).2 [] ⟨[2], [0]⟩
      testWorld (by decide) rfl (by decide)⟩

/-! ## Theorems: the loops at every input -/

/-- Terminal events of the confirm-twice protocol contain no `wallet.load` call. -/
theorem walletLoads_of_terminal (t : List Event)
    (h : ∀ e ∈ t, (∃ q, e = Event.getPassword q) ∨ e = Event.cout differentLine) :
    walletLoads t = [] := by
  induction t with
  | nil => rfl
  | cons e t ih =>
    have ht := ih (fun x hx => h x (List.mem_cons_of_mem _ hx))
    rcases h e (List.mem_cons_self _ _) with ⟨q, rfl⟩ | rfl
    · simpa [walletLoads] using ht
    · simpa [walletLoads] using ht

/-- C14 (defect): in the wallet mode `New` (as `-n` selects it) the unlock loop is
never run. With a wallet that exists, for every master password, pre-supplied
or not, and all responses, `execute` makes no `wallet.load` call at all. With
a pre-supplied master password it shows no prompt either: it takes the
`CreateWallet` branch, calls `wallet.create` with the pre-supplied password
and leaves the world that call makes, so the existing wallet is replaced
instead of unlocked. -/
theorem new_mode_skips_unlock_loop {W : Type} (c : Collaborators W) (fuel : Nat) (s : KeyCLI)
    (script : List String) (w : W) (hmode : s.m_mode = OperationMode.New)
    (hexists : c.walletExists w s.m_walletPath s.m_secretsPath = true) :
    walletLoads (s.execute c fuel script w).trace = []
    ∧ (s.m_masterPassword ≠ "" →
        s.execute c fuel script w
            = ⟨Status.returned,
                [Event.keyManager s.m_walletPath s.m_secretsPath,
                  Event.walletCreate s.m_masterPassword],
                s, script, c.walletCreate w s.m_walletPath s.m_secretsPath s.m_masterPassword⟩
          ∧ promptsShown (s.execute c fuel script w).trace = []) := by
  have hcw : s.m_mode = OperationMode.CreateWallet := by rw [hmode]; decide
  have he : s.m_masterPassword ≠ "" → s.execute c fuel script w
      = ⟨Status.returned,
          [Event.keyManager s.m_walletPath s.m_secretsPath,
            Event.walletCreate s.m_masterPassword],
          s, script, c.walletCreate w s.m_walletPath s.m_secretsPath s.m_masterPassword⟩ := by
    intro hmaster
    unfold KeyCLI.execute
    rw [if_pos hcw, if_neg hmaster]
    dsimp only
    rw [if_neg hmaster]
    cases s
    rfl
  refine ⟨?_, fun hmaster => ?_⟩
  · by_cases hmaster : s.m_masterPassword = ""
    · have hev := createPassword_events masterCreatePrompt script
      unfold KeyCLI.execute
      rw [if_pos hcw, if_pos hmaster]
      dsimp only
      generalize createPassword masterCreatePrompt script = r at hev
      obtain ⟨t, o⟩ := r
      have ht : walletLoads t = [] := walletLoads_of_terminal t hev
      cases o with
      | awaiting =>
        simp only [walletLoads, List.filterMap_cons] at ht ⊢
        exact ht
      | returned master rest =>
        dsimp only
        by_cases hm : master = ""
        · rw [if_pos hm]
          simp only [walletLoads, List.cons_append, List.filterMap_cons,
            List.filterMap_append, List.filterMap_nil, List.append_nil] at ht ⊢
          exact ht
        · rw [if_neg hm]
          simp only [walletLoads, List.cons_append, List.filterMap_cons,
            List.filterMap_append, List.filterMap_nil, List.append_nil] at ht ⊢
          exact ht
    · rw [he hmaster]
      rfl
  · rw [he hmaster]
    exact ⟨rfl, rfl⟩

/-- Witness for C14: the wallet exists with master password correct; in mode `New`
with the pre-supplied password wrong and the responses wrong, correct, no
`load` is attempted and the wallet is re-created under the password wrong,
while in mode `List` the same passwords unlock it on the third `load`. -/
theorem new_mode_skips_unlock_loop_witness :
    lockedWorld = ⟨true, "correct", []⟩
    ∧ (({ testSession OperationMode.New with m_masterPassword := "wrong" }).execute
        testCollaborators 0 ["wrong", "correct"] lockedWorld).world = ⟨true, "wrong", []⟩
    ∧ (({ testSession OperationMode.New with m_masterPassword := "wrong" }).execute
        testCollaborators 0 ["wrong", "correct"] lockedWorld).trace
      = [Event.keyManager "wallet" "secrets", Event.walletCreate "wrong"]
    ∧ walletLoads (({ testSession OperationMode.List with m_masterPassword := "wrong" }).execute
        testCollaborators 0 ["wrong", "correct"] lockedWorld).trace = ["wrong", "wrong", "correct"]
    ∧ walletLoads (({ testSession OperationMode.New with m_masterPassword := "wrong" }).execute
        testCollaborators 0 ["wrong", "correct"] lockedWorld).trace = [] :=
  ⟨rfl, by decide, by decide, by decide,
    (new_mode_skips_unlock_loop testCollaborators 0
      { testSession OperationMode.New with m_masterPassword := "wrong" }
      ["wrong", "correct"] lockedWorld (by decide) (by decide)).1⟩

end Ethkey
